import Mathlib

/-!
Verification of the bseecs entity-component system (single header `beecs.h`).

The C++ source is shallowly embedded: each C++ member function becomes a Lean
function on an explicit state value.  `std::vector` is modelled as `List`,
`size_t` values as `Nat` (with the `size_t` sentinel `tombstone = 2^64 - 1`
kept explicit), fatal `BSEECS_ASSERT` aborts as `Option.none` results.
-/

namespace bseecs

/-- `EntityID` sentinel: `std::numeric_limits<uint64_t>::max()`. -/
def NULL_ENTITY : Nat := 2 ^ 64 - 1

/-- `std::numeric_limits<size_t>::max()`, the sparse-set "no entry" marker. -/
def tombstone : Nat := 2 ^ 64 - 1

/-- `constexpr size_t MAX_ENTITIES = 1'000'000`. -/
def MAX_ENTITIES : Nat := 1000000

/-- `constexpr size_t MAX_COMPONENTS = 64`. -/
def MAX_COMPONENTS : Nat := 64

/-- `const size_t SPARSE_MAX_SIZE = 1'000` (page size of the paged sparse array). -/
def SPARSE_MAX_SIZE : Nat := 1000

/-- `std::vector::resize(n, fill)`: truncates when `n ≤ length`, otherwise pads
with `fill` up to length `n`. -/
def resizeList {α : Type} (l : List α) (n : Nat) (fill : α) : List α :=
  if n ≤ l.length then l.take n else l ++ List.replicate (n - l.length) fill

/-- State of `SparseSet<T>`: the paged sparse array `m_sparsePages`, the dense
value array `m_dense` and the parallel `m_denseToEntity` array. -/
structure SparseSet (T : Type) where
  sparsePages : List (List Nat)
  dense : List T
  denseToEntity : List Nat
deriving DecidableEq, Inhabited

namespace SparseSet

variable {T : Type} [Inhabited T]

/-- Freshly constructed `SparseSet<T>` (the constructor only reserves capacity,
which has no observable effect on the contents). -/
def init : SparseSet T := ⟨[], [], []⟩

/-- `SparseSet::SetDenseIndex(id, index)`: grows the page table and the page on
demand (new slots filled with `tombstone`), then records `id ↦ index`. -/
def SetDenseIndex (s : SparseSet T) (id index : Nat) : SparseSet T :=
  let page := id / SPARSE_MAX_SIZE
  let sparseIndex := id % SPARSE_MAX_SIZE
  let pages := if page < s.sparsePages.length then s.sparsePages
               else resizeList s.sparsePages (page + 1) []
  let row := pages.getD page []
  let row2 := if sparseIndex < row.length then row
              else resizeList row (sparseIndex + 1) tombstone
  { s with sparsePages := pages.set page (row2.set sparseIndex index) }

/-- `SparseSet::GetDenseIndex(id)`: dense index of `id`, or `tombstone`. -/
def GetDenseIndex (s : SparseSet T) (id : Nat) : Nat :=
  let page := id / SPARSE_MAX_SIZE
  let sparseIndex := id % SPARSE_MAX_SIZE
  if page < s.sparsePages.length then
    let row := s.sparsePages.getD page []
    if sparseIndex < row.length then row.getD sparseIndex tombstone
    else tombstone
  else tombstone

/-- `SparseSet::Set(id, obj)`: overwrite in place when `id` already has a dense
index, otherwise append at the back of the dense arrays and record the new
index. -/
def Set (s : SparseSet T) (id : Nat) (obj : T) : SparseSet T :=
  let index := GetDenseIndex s id
  if index ≠ tombstone then
    { s with dense := s.dense.set index obj,
             denseToEntity := s.denseToEntity.set index id }
  else
    let s1 := SetDenseIndex s id s.dense.length
    { s1 with dense := s1.dense ++ [obj],
              denseToEntity := s1.denseToEntity ++ [id] }

/-- `SparseSet::Set` returns `&m_dense[index]`; the value stored for `id`
immediately after a `Set` is the argument itself, so the returned reference is
modelled by the stored value (see `Get`). -/
def Get (s : SparseSet T) (id : Nat) : Option T :=
  let index := GetDenseIndex s id
  if index ≠ tombstone then some (s.dense.getD index default) else none

/-- `SparseSet::GetEntity(compId)`: inverse mapping, dense slot to owner id. -/
def GetEntity (s : SparseSet T) (compId : Nat) : Nat :=
  s.denseToEntity.getD compId 0

/-- `SparseSet::Delete(id)`: fatal (`none`) when `id` has no entry or the dense
array is empty; otherwise remaps the entity stored last to the vacated slot,
tombstones `id`, swap-and-pops both dense arrays. -/
def Delete (s : SparseSet T) (id : Nat) : Option (SparseSet T) :=
  let deletedIndex := GetDenseIndex s id
  if deletedIndex = tombstone ∨ s.dense.length = 0 then none
  else
    let s1 := SetDenseIndex s (s.denseToEntity.getLastD 0) deletedIndex
    let s2 := SetDenseIndex s1 id tombstone
    some { s2 with
      dense := (s2.dense.set deletedIndex (s2.dense.getLastD default)).dropLast,
      denseToEntity :=
        (s2.denseToEntity.set deletedIndex (s2.denseToEntity.getLastD 0)).dropLast }

/-- `SparseSet::Clear()`: empties all three internal arrays. -/
def Clear (s : SparseSet T) : SparseSet T := ⟨[], [], []⟩

/-- `SparseSet::IsEmpty()`. -/
def IsEmpty (s : SparseSet T) : Bool := s.dense.isEmpty

theorem length_resizeList {α : Type} (l : List α) (n : Nat) (f : α) :
    (resizeList l n f).length = n := by
  unfold resizeList
  split <;> simp <;> omega

theorem getElem?_resizeList {α : Type} (l : List α) (n : Nat) (f : α) (i : Nat) :
    (resizeList l n f)[i]? =
      if i < n then (if i < l.length then l[i]? else some f) else none := by
  unfold resizeList
  split <;> rename_i h
  · by_cases hi : i < n
    · rw [List.getElem?_take_of_lt hi]
      have hl : i < l.length := Nat.lt_of_lt_of_le hi h
      simp [hi, hl]
    · rw [List.getElem?_eq_none (by simp [List.length_take]; omega)]
      simp [hi]
  · by_cases hi : i < l.length
    · rw [List.getElem?_append_left hi]
      simp [hi, Nat.lt_of_lt_of_le hi (Nat.le_of_not_le h)]
    · by_cases hn : i < n
      · rw [List.getElem?_append_right (Nat.le_of_not_lt hi)]
        rw [List.getElem?_replicate]
        have : i - l.length < n - l.length := by omega
        simp [hn, hi, this]
      · rw [List.getElem?_eq_none (by simp [List.length_replicate]; omega)]
        simp [hn]

/-- Canonical read of the paged sparse array in terms of `getElem?`. -/
theorem GetDenseIndex_eq (s : SparseSet T) (id : Nat) :
    GetDenseIndex s id =
      ((s.sparsePages[id / SPARSE_MAX_SIZE]?).getD []).getD
        (id % SPARSE_MAX_SIZE) tombstone := by
  unfold GetDenseIndex
  simp only [List.getD_eq_getElem?_getD]
  split <;> rename_i hp
  · split <;> rename_i hq
    · rfl
    · have hnone : ((s.sparsePages[id / SPARSE_MAX_SIZE]?).getD
          [])[id % SPARSE_MAX_SIZE]? = none := by
        apply List.getElem?_eq_none
        simpa using Nat.le_of_not_lt hq
      rw [hnone]
      rfl
  · have hnone : s.sparsePages[id / SPARSE_MAX_SIZE]? = none := by
      apply List.getElem?_eq_none
      exact Nat.le_of_not_lt hp
    rw [hnone]
    simp

@[simp] theorem dense_SetDenseIndex (s : SparseSet T) (id index : Nat) :
    (SetDenseIndex s id index).dense = s.dense := rfl

@[simp] theorem denseToEntity_SetDenseIndex (s : SparseSet T) (id index : Nat) :
    (SetDenseIndex s id index).denseToEntity = s.denseToEntity := rfl

/-- Reading back the slot just written by `SetDenseIndex`. -/
theorem GetDenseIndex_SetDenseIndex_self (s : SparseSet T) (id index : Nat) :
    GetDenseIndex (SetDenseIndex s id index) id = index := by
  rw [GetDenseIndex_eq]
  unfold SetDenseIndex
  set p := id / SPARSE_MAX_SIZE with hp
  set q := id % SPARSE_MAX_SIZE with hq
  simp only
  set pages := if p < s.sparsePages.length then s.sparsePages
               else resizeList s.sparsePages (p + 1) [] with hpages
  have hplen : p < pages.length := by
    rw [hpages]; split <;> rename_i h
    · exact h
    · rw [length_resizeList]; omega
  set row := pages.getD p [] with hrow
  set row2 := if q < row.length then row else resizeList row (q + 1) tombstone with hrow2
  have hqlen : q < row2.length := by
    rw [hrow2]; split <;> rename_i h
    · exact h
    · rw [length_resizeList]; omega
  have h1 : ((pages.set p (row2.set q index))[p]?).getD [] = row2.set q index := by
    rw [List.getElem?_set_self (by simpa using hplen)]
    rfl
  simp only [h1]
  rw [List.getD_eq_getElem?_getD, List.getElem?_set_self (by simpa using hqlen)]
  rfl

/-- `SetDenseIndex` leaves every other id's dense index unchanged. -/
theorem GetDenseIndex_SetDenseIndex_ne (s : SparseSet T) (id index id' : Nat)
    (hne : id' ≠ id) :
    GetDenseIndex (SetDenseIndex s id index) id' = GetDenseIndex s id' := by
  rw [GetDenseIndex_eq, GetDenseIndex_eq]
  unfold SetDenseIndex
  simp only
  have hpq : ¬ (id' / SPARSE_MAX_SIZE = id / SPARSE_MAX_SIZE ∧
      id' % SPARSE_MAX_SIZE = id % SPARSE_MAX_SIZE) := by
    rintro ⟨h1, h2⟩
    apply hne
    have e1 := Nat.div_add_mod id' SPARSE_MAX_SIZE
    have e2 := Nat.div_add_mod id SPARSE_MAX_SIZE
    rw [h1, h2] at e1
    omega
  set p := id / SPARSE_MAX_SIZE with hp
  set q := id % SPARSE_MAX_SIZE with hq
  set p' := id' / SPARSE_MAX_SIZE with hp'
  set q' := id' % SPARSE_MAX_SIZE with hq'
  set pages := if p < s.sparsePages.length then s.sparsePages
               else resizeList s.sparsePages (p + 1) [] with hpages
  have hplen : p < pages.length := by
    rw [hpages]; split <;> rename_i h
    · exact h
    · rw [length_resizeList]; omega
  -- the resize of the page table preserves every read of the original table
  have hpagesAt : ∀ j : Nat, ((pages[j]?).getD []).getD q' tombstone
      = ((s.sparsePages[j]?).getD []).getD q' tombstone := by
    intro j
    rw [hpages]
    split <;> rename_i h
    · rfl
    · rw [getElem?_resizeList]
      by_cases hj1 : j < s.sparsePages.length
      · have hjp : j < p + 1 := by omega
        simp [hj1, hjp]
      · have hnone : s.sparsePages[j]? = none := List.getElem?_eq_none (Nat.le_of_not_lt hj1)
        rw [hnone]
        by_cases hj2 : j < p + 1 <;> simp [hj2, hj1]
  set row := pages.getD p [] with hrow
  set row2 := if q < row.length then row else resizeList row (q + 1) tombstone with hrow2
  by_cases hpp : p' = p
  · -- same page, different slot in it
    have hqq : q' ≠ q := fun h => hpq ⟨hpp, h⟩
    rw [hpp]
    rw [List.getElem?_set_self (by simpa using hplen)]
    simp only [Option.getD_some]
    rw [List.getD_eq_getElem?_getD, List.getElem?_set_ne (by omega),
      ← List.getD_eq_getElem?_getD]
    -- reading slot `q'` of the (possibly resized) page equals the original read
    have step : row2.getD q' tombstone = row.getD q' tombstone := by
      rw [hrow2]
      split <;> rename_i h
      · rfl
      · rw [List.getD_eq_getElem?_getD, getElem?_resizeList]
        by_cases hj1 : q' < row.length
        · have hjq : q' < q + 1 := by omega
          simp [hj1, hjq, List.getD_eq_getElem?_getD]
        · have hnone : row[q']? = none := List.getElem?_eq_none (Nat.le_of_not_lt hj1)
          rw [List.getD_eq_getElem?_getD, hnone]
          by_cases hj2 : q' < q + 1 <;> simp [hj2, hj1]
    rw [step, hrow]
    have hfin := hpagesAt p
    simp only [List.getD_eq_getElem?_getD] at hfin ⊢
    exact hfin
  · -- different page: only page `p` was replaced
    rw [List.getElem?_set_ne (by omega)]
    exact hpagesAt p'

theorem getLastD_eq_getD {α : Type} (l : List α) (d : α) :
    l.getLastD d = l.getD (l.length - 1) d := by
  simp [List.getLastD_eq_getLast?, List.getLast?_eq_getElem?]

theorem getD_set_dropLast_ne {α : Type} (l : List α) (i j : Nat) (x d : α)
    (hj : j < l.length - 1) (hne : i ≠ j) :
    ((l.set i x).dropLast).getD j d = l.getD j d := by
  rw [List.dropLast_eq_take, List.length_set]
  simp only [List.getD_eq_getElem?_getD]
  rw [List.getElem?_take_of_lt hj, List.getElem?_set_ne hne]

theorem getD_set_dropLast_self {α : Type} (l : List α) (i : Nat) (x d : α)
    (hi : i < l.length - 1) :
    ((l.set i x).dropLast).getD i d = x := by
  rw [List.dropLast_eq_take, List.length_set]
  simp only [List.getD_eq_getElem?_getD]
  rw [List.getElem?_take_of_lt hi, List.getElem?_set_self (by omega)]
  rfl

/-- The overwrite branch of `SparseSet::Set`, made explicit. -/
theorem Set_present (s : SparseSet T) (id : Nat) (v : T)
    (h : GetDenseIndex s id ≠ tombstone) :
    Set s id v = { s with dense := s.dense.set (GetDenseIndex s id) v,
                          denseToEntity := s.denseToEntity.set (GetDenseIndex s id) id } := by
  unfold Set
  simp [h]

/-- The append branch of `SparseSet::Set`, made explicit. -/
theorem Set_new (s : SparseSet T) (id : Nat) (v : T)
    (h : GetDenseIndex s id = tombstone) :
    Set s id v = { SetDenseIndex s id s.dense.length with
                   dense := s.dense ++ [v],
                   denseToEntity := s.denseToEntity ++ [id] } := by
  unfold Set
  simp [h]

theorem GetDenseIndex_of_eq_pages (s s' : SparseSet T)
    (h : s'.sparsePages = s.sparsePages) (e : Nat) :
    GetDenseIndex s' e = GetDenseIndex s e := by
  rw [GetDenseIndex_eq, GetDenseIndex_eq, h]

/-- Overwriting an already-present entity does not change any dense index. -/
theorem GetDenseIndex_Set_present (s : SparseSet T) (id : Nat) (v : T)
    (h : GetDenseIndex s id ≠ tombstone) (e : Nat) :
    GetDenseIndex (Set s id v) e = GetDenseIndex s e := by
  rw [Set_present s id v h]
  exact GetDenseIndex_of_eq_pages _ _ rfl e

theorem GetDenseIndex_Set_new_self (s : SparseSet T) (id : Nat) (v : T)
    (h : GetDenseIndex s id = tombstone) :
    GetDenseIndex (Set s id v) id = s.dense.length := by
  rw [Set_new s id v h]
  exact (GetDenseIndex_of_eq_pages _ (SetDenseIndex s id s.dense.length) rfl id).trans
    (GetDenseIndex_SetDenseIndex_self s id s.dense.length)

theorem GetDenseIndex_Set_new_ne (s : SparseSet T) (id : Nat) (v : T)
    (h : GetDenseIndex s id = tombstone) (e : Nat) (hne : e ≠ id) :
    GetDenseIndex (Set s id v) e = GetDenseIndex s e := by
  rw [Set_new s id v h]
  exact (GetDenseIndex_of_eq_pages _ (SetDenseIndex s id s.dense.length) rfl e).trans
    (GetDenseIndex_SetDenseIndex_ne s id s.dense.length e hne)

/-- Well-formedness of a sparse set: the two dense arrays agree in length, the
dense array cannot outgrow `size_t`, every dense slot's owner maps back to that
slot, and every live sparse entry points to an in-range dense slot owned by the
same id. -/
def WF (s : SparseSet T) : Prop :=
  s.dense.length = s.denseToEntity.length ∧
  s.dense.length ≤ tombstone ∧
  (∀ i : Nat, i < s.denseToEntity.length →
    GetDenseIndex s (s.denseToEntity.getD i 0) = i) ∧
  (∀ e : Nat, GetDenseIndex s e ≠ tombstone →
    GetDenseIndex s e < s.dense.length ∧
    s.denseToEntity.getD (GetDenseIndex s e) 0 = e)

theorem GetDenseIndex_init (e : Nat) : GetDenseIndex (init : SparseSet T) e = tombstone := by
  rw [GetDenseIndex_eq]
  rfl

theorem WF_init : WF (init : SparseSet T) := by
  refine ⟨rfl, by simp [init, tombstone], ?_, ?_⟩
  · intro i hi
    simp [init] at hi
  · intro e he
    exact absurd (GetDenseIndex_init e) he

theorem WF_Clear (s : SparseSet T) : WF (Clear s) := WF_init

/-- `SparseSet::Set` preserves well-formedness (as long as the dense array has
room to grow inside `size_t`, which holds in every reachable state). -/
theorem WF_Set (s : SparseSet T) (id : Nat) (v : T) (hWF : WF s)
    (hlen : s.dense.length < tombstone) : WF (Set s id v) := by
  obtain ⟨h1, h2, h3, h4⟩ := hWF
  by_cases hidx : GetDenseIndex s id = tombstone
  · -- append branch
    have hG : ∀ e : Nat, e ≠ id → GetDenseIndex (Set s id v) e = GetDenseIndex s e :=
      fun e he => GetDenseIndex_Set_new_ne s id v hidx e he
    have hGid : GetDenseIndex (Set s id v) id = s.dense.length :=
      GetDenseIndex_Set_new_self s id v hidx
    have hdense : (Set s id v).dense = s.dense ++ [v] := by rw [Set_new s id v hidx]
    have hdte : (Set s id v).denseToEntity = s.denseToEntity ++ [id] := by
      rw [Set_new s id v hidx]
    refine ⟨by simp [hdense, hdte, h1], by simp [hdense]; omega, ?_, ?_⟩
    · intro i hi
      simp only [hdte, List.length_append, List.length_singleton] at hi
      by_cases hin : i = s.denseToEntity.length
      · have : (s.denseToEntity ++ [id]).getD i 0 = id := by
          rw [hin]
          simp [List.getD_eq_getElem?_getD, List.getElem?_concat_length]
        rw [hdte, this, hin, ← h1]
        exact hGid
      · have hilt : i < s.denseToEntity.length := by omega
        have hgetd : (s.denseToEntity ++ [id]).getD i 0 = s.denseToEntity.getD i 0 := by
          simp [List.getD_eq_getElem?_getD, List.getElem?_append_left hilt]
        rw [hdte, hgetd]
        have hown := h3 i hilt
        have hne : s.denseToEntity.getD i 0 ≠ id := by
          intro hcontra
          rw [hcontra, hidx] at hown
          omega
        rw [hG _ hne]
        exact hown
    · intro e he
      by_cases hei : e = id
      · subst hei
        rw [hGid] at he ⊢
        constructor
        · simp [hdense]
        · rw [hdte, h1]
          simp [List.getD_eq_getElem?_getD, List.getElem?_concat_length]
      · rw [hG _ hei] at he ⊢
        obtain ⟨hlt, hown⟩ := h4 e he
        constructor
        · simp [hdense]; omega
        · rw [hdte]
          have : GetDenseIndex s e < s.denseToEntity.length := by omega
          simp [List.getD_eq_getElem?_getD, List.getElem?_append_left this]
          simpa [List.getD_eq_getElem?_getD] using hown
  · -- overwrite branch
    have hG : ∀ e : Nat, GetDenseIndex (Set s id v) e = GetDenseIndex s e :=
      GetDenseIndex_Set_present s id v hidx
    have hdense : (Set s id v).dense = s.dense.set (GetDenseIndex s id) v := by
      rw [Set_present s id v hidx]
    have hdte : (Set s id v).denseToEntity
        = s.denseToEntity.set (GetDenseIndex s id) id := by
      rw [Set_present s id v hidx]
    obtain ⟨hidlt, hidown⟩ := h4 id hidx
    have hidlt2 : GetDenseIndex s id < s.denseToEntity.length := by omega
    refine ⟨by simp [hdense, hdte, h1], by simp [hdense]; omega, ?_, ?_⟩
    · intro i hi
      simp only [hdte, List.length_set] at hi
      by_cases hin : i = GetDenseIndex s id
      · have : (s.denseToEntity.set (GetDenseIndex s id) id).getD i 0 = id := by
          rw [hin]
          simp [List.getD_eq_getElem?_getD, List.getElem?_set_self hidlt2]
        rw [hdte, this, hG, hin]
      · have : (s.denseToEntity.set (GetDenseIndex s id) id).getD i 0
            = s.denseToEntity.getD i 0 := by
          simp [List.getD_eq_getElem?_getD,
            List.getElem?_set_ne (fun h => hin h.symm)]
        rw [hdte, this, hG]
        exact h3 i hi
    · intro e he
      rw [hG] at he ⊢
      obtain ⟨hlt, hown⟩ := h4 e he
      refine ⟨by simp [hdense]; omega, ?_⟩
      by_cases hde : GetDenseIndex s e = GetDenseIndex s id
      · have hei : e = id := by rw [← hown, hde, hidown]
        rw [hdte, hde]
        simp [List.getD_eq_getElem?_getD, List.getElem?_set_self hidlt2]
        exact hei.symm
      · rw [hdte]
        simp [List.getD_eq_getElem?_getD, List.getElem?_set_ne (fun h => hde h.symm)]
        simpa [List.getD_eq_getElem?_getD] using hown

theorem Get_eq (s : SparseSet T) (e : Nat) :
    Get s e = if GetDenseIndex s e ≠ tombstone
              then some (s.dense.getD (GetDenseIndex s e) default) else none := rfl

/-- The successful branch of `SparseSet::Delete`, made explicit. -/
theorem Delete_eq (s : SparseSet T) (id : Nat)
    (hp : GetDenseIndex s id ≠ tombstone) (hn : s.dense.length ≠ 0) :
    Delete s id = some
      { SetDenseIndex (SetDenseIndex s (s.denseToEntity.getLastD 0) (GetDenseIndex s id))
          id tombstone with
        dense := (s.dense.set (GetDenseIndex s id) (s.dense.getLastD default)).dropLast,
        denseToEntity := (s.denseToEntity.set (GetDenseIndex s id)
          (s.denseToEntity.getLastD 0)).dropLast } := by
  unfold Delete
  simp [hp, hn]

theorem Delete_none (s : SparseSet T) (id : Nat)
    (h : GetDenseIndex s id = tombstone ∨ s.dense.length = 0) :
    Delete s id = none := by
  rcases h with h | h
  · unfold Delete
    simp [h]
  · unfold Delete
    simp [h]

/-- Master specification of `SparseSet::Delete` on a well-formed state holding
`id`: it succeeds, preserves well-formedness, shrinks the dense array by one,
tombstones `id`, and leaves the observable value of every other id intact
(covering the edge case where `id` owned the last dense slot). -/
theorem Delete_spec (s : SparseSet T) (id : Nat) (hWF : WF s)
    (hpres : GetDenseIndex s id ≠ tombstone) :
    ∃ s', Delete s id = some s' ∧ WF s' ∧
      s'.dense.length = s.dense.length - 1 ∧
      GetDenseIndex s' id = tombstone ∧
      (∀ e : Nat, e ≠ id → Get s' e = Get s e) := by
  obtain ⟨h1, h2, h3, h4⟩ := hWF
  obtain ⟨hdlt, hdown⟩ := h4 id hpres
  have hn0 : s.dense.length ≠ 0 := by omega
  refine ⟨_, Delete_eq s id hpres hn0, ?_⟩
  set last := s.denseToEntity.getLastD 0 with hlastdef
  set d := GetDenseIndex s id with hddef
  set n := s.dense.length with hndef
  set s' : SparseSet T := { SetDenseIndex (SetDenseIndex s last d) id tombstone with
    dense := (s.dense.set d (s.dense.getLastD default)).dropLast,
    denseToEntity := (s.denseToEntity.set d last).dropLast } with hs'
  have hlast_getD : last = s.denseToEntity.getD (s.denseToEntity.length - 1) 0 := by
    rw [hlastdef]; exact getLastD_eq_getD _ _
  have hlastidx : GetDenseIndex s last = n - 1 := by
    rw [hlast_getD]
    have := h3 (s.denseToEntity.length - 1) (by omega)
    rw [this, ← h1]
  have hGid : GetDenseIndex s' id = tombstone :=
    (GetDenseIndex_of_eq_pages s' (SetDenseIndex (SetDenseIndex s last d) id tombstone)
      rfl id).trans (GetDenseIndex_SetDenseIndex_self _ id tombstone)
  have hGlast : last ≠ id → GetDenseIndex s' last = d := fun hne =>
    (GetDenseIndex_of_eq_pages s' (SetDenseIndex (SetDenseIndex s last d) id tombstone)
      rfl last).trans
    ((GetDenseIndex_SetDenseIndex_ne _ id tombstone last hne).trans
      (GetDenseIndex_SetDenseIndex_self s last d))
  have hGoth : ∀ e : Nat, e ≠ id → e ≠ last → GetDenseIndex s' e = GetDenseIndex s e :=
    fun e he1 he2 =>
    (GetDenseIndex_of_eq_pages s' (SetDenseIndex (SetDenseIndex s last d) id tombstone)
      rfl e).trans
    ((GetDenseIndex_SetDenseIndex_ne _ id tombstone e he1).trans
      (GetDenseIndex_SetDenseIndex_ne s last d e he2))
  have hdense' : s'.dense = (s.dense.set d (s.dense.getLastD default)).dropLast := rfl
  have hdte' : s'.denseToEntity = (s.denseToEntity.set d last).dropLast := rfl
  have hdenselen : s'.dense.length = n - 1 := by
    rw [hdense']; simp [hndef]
  have hdtelen : s'.denseToEntity.length = n - 1 := by
    rw [hdte']; simp [← h1, hndef]
  have hdtelen0 : s.denseToEntity.length = n := h1.symm
  -- owner uniqueness facts on the original state
  have huniq_id : ∀ j : Nat, j < n → s.denseToEntity.getD j 0 = id → j = d := by
    intro j hj hjid
    have := h3 j (by omega)
    rw [hjid] at this
    rw [hddef, ← this]
  have huniq_last : ∀ j : Nat, j < n → s.denseToEntity.getD j 0 = last → j = n - 1 := by
    intro j hj hjl
    have := h3 j (by omega)
    rw [hjl, hlastidx] at this
    omega
  have hdgetLast : s.dense.getLastD default = s.dense.getD (n - 1) default := by
    rw [hndef]; exact getLastD_eq_getD _ _
  by_cases hli : last = id
  · -- the deleted record was the last dense element
    have hdn : d = n - 1 := by rw [hddef, ← hli, hlastidx]
    have hGall : ∀ e : Nat, e ≠ id → GetDenseIndex s' e = GetDenseIndex s e := by
      intro e he
      exact hGoth e he (by rw [hli]; exact he)
    refine ⟨⟨by rw [hdenselen, hdtelen], by rw [hdenselen]; omega, ?_, ?_⟩, by
        rw [hdenselen], hGid, ?_⟩
    · intro i hi
      rw [hdtelen] at hi
      have hine : i ≠ d := by omega
      have hia : s'.denseToEntity.getD i 0 = s.denseToEntity.getD i 0 := by
        rw [hdte']
        exact getD_set_dropLast_ne _ _ _ _ _ (by omega) (fun h => hine h.symm)
      rw [hia]
      have hown := h3 i (by omega)
      have hne_id : s.denseToEntity.getD i 0 ≠ id := by
        intro hcontra
        exact hine (huniq_id i (by omega) hcontra)
      rw [hGall _ hne_id]
      exact hown
    · intro e he
      have hne_id : e ≠ id := by
        intro hcontra
        rw [hcontra, hGid] at he
        exact he rfl
      rw [hGall _ hne_id] at he ⊢
      obtain ⟨hlt, hown⟩ := h4 e he
      have hjd : GetDenseIndex s e ≠ d := by
        intro hcontra
        apply hne_id
        rw [← hown, hcontra, hdown]
      have hjne : GetDenseIndex s e ≠ n - 1 := by rw [← hdn]; exact hjd
      have hjlt : GetDenseIndex s e < n - 1 := by omega
      refine ⟨by rw [hdenselen]; omega, ?_⟩
      rw [hdte']
      rw [getD_set_dropLast_ne _ _ _ _ _ (by omega) (by omega)]
      exact hown
    · intro e he
      rw [Get_eq, Get_eq, hGall _ he]
      by_cases habs : GetDenseIndex s e = tombstone
      · simp [habs]
      · obtain ⟨hlt, hown⟩ := h4 e habs
        have hjd : GetDenseIndex s e ≠ d := by
          intro hcontra
          apply he
          rw [← hown, hcontra, hdown]
        have hjne : GetDenseIndex s e ≠ n - 1 := by rw [← hdn]; exact hjd
        have hjlt : GetDenseIndex s e < n - 1 := by omega
        simp only [ne_eq, habs, not_false_eq_true, if_true]
        rw [getD_set_dropLast_ne _ _ _ _ _ (by omega) (by omega)]
  · -- the deleted record was an interior dense element; the last one moved
    have hdn : d < n - 1 := by
      have hdne : d ≠ n - 1 := by
        intro hcontra
        apply hli
        rw [hlast_getD, hdtelen0, ← hcontra, hdown]
      omega
    refine ⟨⟨by rw [hdenselen, hdtelen], by rw [hdenselen]; omega, ?_, ?_⟩, by
        rw [hdenselen], hGid, ?_⟩
    · intro i hi
      rw [hdtelen] at hi
      by_cases hieq : i = d
      · have hia : s'.denseToEntity.getD i 0 = last := by
          rw [hdte', hieq]
          exact getD_set_dropLast_self _ _ _ _ (by omega)
        rw [hia, hGlast hli, hieq]
      · have hia : s'.denseToEntity.getD i 0 = s.denseToEntity.getD i 0 := by
          rw [hdte']
          exact getD_set_dropLast_ne _ _ _ _ _ (by omega) (fun h => hieq h.symm)
        rw [hia]
        have hown := h3 i (by omega)
        have hne_id : s.denseToEntity.getD i 0 ≠ id := by
          intro hcontra
          exact hieq (huniq_id i (by omega) hcontra)
        have hne_last : s.denseToEntity.getD i 0 ≠ last := by
          intro hcontra
          have := huniq_last i (by omega) hcontra
          omega
        rw [hGoth _ hne_id hne_last]
        exact hown
    · intro e he
      have hne_id : e ≠ id := by
        intro hcontra
        rw [hcontra, hGid] at he
        exact he rfl
      by_cases hel : e = last
      · rw [hel, hGlast hli] at he ⊢
        refine ⟨by rw [hdenselen]; omega, ?_⟩
        rw [hdte']
        rw [getD_set_dropLast_self _ _ _ _ (by omega)]
      · rw [hGoth _ hne_id hel] at he ⊢
        obtain ⟨hlt, hown⟩ := h4 e he
        have hjd : GetDenseIndex s e ≠ d := by
          intro hcontra
          apply hne_id
          rw [← hown, hcontra, hdown]
        have hjl : GetDenseIndex s e ≠ n - 1 := by
          intro hcontra
          apply hel
          rw [← hown, hcontra, ← hdtelen0, ← hlast_getD]
        refine ⟨by rw [hdenselen]; omega, ?_⟩
        rw [hdte']
        rw [getD_set_dropLast_ne _ _ _ _ _ (by omega) (by omega)]
        exact hown
    · intro e he
      rw [Get_eq, Get_eq]
      by_cases hel : e = last
      · have hidx_old : GetDenseIndex s e = n - 1 := by rw [hel, hlastidx]
        have hidx_new : GetDenseIndex s' e = d := by rw [hel]; exact hGlast hli
        have hnetomb : (n : Nat) - 1 ≠ tombstone := by omega
        rw [hidx_old, hidx_new]
        simp only [ne_eq, hnetomb, hpres, not_false_eq_true, if_true]
        rw [getD_set_dropLast_self _ _ _ _ (by omega), hdgetLast]
      · rw [hGoth _ he hel]
        by_cases habs : GetDenseIndex s e = tombstone
        · simp [habs]
        · obtain ⟨hlt, hown⟩ := h4 e habs
          have hjd : GetDenseIndex s e ≠ d := by
            intro hcontra
            apply he
            rw [← hown, hcontra, hdown]
          have hjl : GetDenseIndex s e ≠ n - 1 := by
            intro hcontra
            apply hel
            rw [← hown, hcontra, ← hdtelen0, ← hlast_getD]
          simp only [ne_eq, habs, not_false_eq_true, if_true]
          rw [getD_set_dropLast_ne _ _ _ _ _ (by omega) (by omega)]

theorem dense_length_Set_le (s : SparseSet T) (id : Nat) (v : T) :
    (Set s id v).dense.length ≤ s.dense.length + 1 := by
  by_cases h : GetDenseIndex s id = tombstone
  · rw [Set_new s id v h]
    simp
  · rw [Set_present s id v h]
    simp

end SparseSet

/-- One mutating operation on a sparse set, as driven by the public API. -/
inductive SSOp where
  | sset (id : Nat) (v : Nat)
  | sdel (id : Nat)
  | sclear
deriving DecidableEq

/-- Apply one operation; `none` models a fatal `BSEECS_ASSERT`. -/
def applySSOp (s : SparseSet Nat) : SSOp → Option (SparseSet Nat)
  | .sset id v => some (s.Set id v)
  | .sdel id => s.Delete id
  | .sclear => some s.Clear

/-- Run a sequence of operations from a given state. -/
def runSSOps (s : SparseSet Nat) : List SSOp → Option (SparseSet Nat)
  | [] => some s
  | op :: ops =>
    match applySSOp s op with
    | none => none
    | some s1 => runSSOps s1 ops

theorem WF_runSSOps (ops : List SSOp) (s : SparseSet Nat) (hWF : SparseSet.WF s)
    (hlen : s.dense.length + ops.length ≤ tombstone) (s' : SparseSet Nat)
    (hrun : runSSOps s ops = some s') :
    SparseSet.WF s' ∧ s'.dense.length ≤ s.dense.length + ops.length := by
  induction ops generalizing s with
  | nil =>
    simp only [runSSOps, Option.some.injEq] at hrun
    subst hrun
    exact ⟨hWF, by omega⟩
  | cons op ops ih =>
    cases op with
    | sset id v =>
      simp only [runSSOps, applySSOp] at hrun
      have hstep : SparseSet.WF (s.Set id v) :=
        SparseSet.WF_Set s id v hWF (by simp at hlen; omega)
      have hlen1 := SparseSet.dense_length_Set_le s id v
      have := ih (s.Set id v) hstep (by simp at hlen ⊢; omega) hrun
      obtain ⟨hw, hl⟩ := this
      exact ⟨hw, by simp at hlen ⊢; omega⟩
    | sdel id =>
      simp only [runSSOps, applySSOp] at hrun
      by_cases hpres : s.GetDenseIndex id = tombstone
      · rw [SparseSet.Delete_none s id (Or.inl hpres)] at hrun
        simp at hrun
      · obtain ⟨s1, hdel, hW1, hlen1, _, _⟩ := SparseSet.Delete_spec s id hWF hpres
        rw [hdel] at hrun
        simp only at hrun
        have := ih s1 hW1 (by simp at hlen ⊢; omega) hrun
        obtain ⟨hw, hl⟩ := this
        exact ⟨hw, by simp at hlen ⊢; omega⟩
    | sclear =>
      simp only [runSSOps, applySSOp] at hrun
      have := ih s.Clear (SparseSet.WF_Clear s) (by simp [SparseSet.Clear] at hlen ⊢; omega) hrun
      obtain ⟨hw, hl⟩ := this
      exact ⟨hw, by simp [SparseSet.Clear] at hl; simp only [List.length_cons]; omega⟩

/-- `ECS::ComponentInfo`: bit position plus the two dependency masks.  A
`std::bitset<64>` is modelled as a `Nat` whose binary digits are the bits. -/
structure ComponentInfo where
  bitPosition : Nat
  requiredComponents : Nat
  isRequiredInComponents : Nat
deriving DecidableEq

/-- State of the `ECS` facade.  Component types are identified by `Nat` tokens
(standing for the `typeid(T).name()` keys); all component payloads are
modelled as `Nat` values, which is enough for every facade-level claim.  The
`unordered_map`s become association lists. -/
structure ECS where
  availableEntities : List Nat
  entityNames : List (Nat × String)
  componentPools : List (SparseSet Nat)
  componentBitPosition : List (Nat × ComponentInfo)
  maxEntityID : Nat
deriving DecidableEq

namespace ECS

/-- A default-constructed `ECS`. -/
def init : ECS := ⟨[], [], [], [], 0⟩

/-- `ECS::GetComponentBitPosition<T>()`: bit position of `tok`, or `tombstone`. -/
def GetComponentBitPosition (w : ECS) (tok : Nat) : Nat :=
  match w.componentBitPosition.lookup tok with
  | none => tombstone
  | some info => info.bitPosition

/-- `ECS::GetRequiredComponent<T>()` (a null pointer becomes `none`). -/
def GetRequiredComponent (w : ECS) (tok : Nat) : Option Nat :=
  match w.componentBitPosition.lookup tok with
  | none => none
  | some info => some info.requiredComponents

/-- `ECS::GetSustainedComponent<T>()` (a null pointer becomes `none`). -/
def GetSustainedComponent (w : ECS) (tok : Nat) : Option Nat :=
  match w.componentBitPosition.lookup tok with
  | none => none
  | some info => some info.isRequiredInComponents

/-- `ECS::GetMask<Components...>()`: fold of `SetComponentBit`, which aborts
(`none`) on an unregistered component type. -/
def GetMask (w : ECS) (toks : List Nat) : Option Nat :=
  match toks with
  | [] => some 0
  | t :: ts =>
    match GetMask w ts with
    | none => none
    | some m =>
      if GetComponentBitPosition w t = tombstone then none
      else some (m ||| 2 ^ GetComponentBitPosition w t)

/-- `ECS::SetRequirements<Dependent, Required>()`: sets the dependent's bit in
the required type's sustained mask. -/
def SetRequirements (w : ECS) (deptok rtok : Nat) : Option ECS :=
  match w.componentBitPosition.lookup rtok with
  | none => none
  | some _ =>
    if GetComponentBitPosition w deptok = tombstone then none
    else
      let f : Nat × ComponentInfo → Nat × ComponentInfo := fun p =>
        if p.1 = rtok
        then (p.1, { p.2 with isRequiredInComponents :=
          p.2.isRequiredInComponents ||| 2 ^ GetComponentBitPosition w deptok })
        else p
      some { w with componentBitPosition := w.componentBitPosition.map f }

/-- `ECS::BroadcastRequirements<Dependent, Required...>()`. -/
def BroadcastRequirements (w : ECS) (deptok : Nat) (required : List Nat) : Option ECS :=
  match required with
  | [] => some w
  | r :: rs =>
    match SetRequirements w deptok r with
    | none => none
    | some w1 => BroadcastRequirements w1 deptok rs

/-- `ECS::RegisterComponent<T, Components...>()`. -/
def RegisterComponent (w : ECS) (tok : Nat) (required : List Nat) : Option ECS :=
  match w.componentBitPosition.lookup tok with
  | some _ => none
  | none =>
    if MAX_COMPONENTS ≤ w.componentPools.length then none
    else
      match GetMask w required with
      | none => none
      | some reqMask =>
        let w1 : ECS := { w with
          componentBitPosition :=
            (tok, ⟨w.componentPools.length, reqMask, 0⟩) :: w.componentBitPosition,
          componentPools := w.componentPools ++ [SparseSet.init] }
        BroadcastRequirements w1 tok required

/-- Reads pool number `bp` (`m_componentPools[bp]`). -/
def poolAt (w : ECS) (bp : Nat) : SparseSet Nat :=
  w.componentPools.getD bp default

/-- `ECS::GetComponentPool<T>(registerIfNotFound)`: returns the (possibly
extended) state together with the pool's index; `none` models the fatal
asserts for an unregistered type or an out-of-range bit position. -/
def GetComponentPool (w : ECS) (tok : Nat) (registerIfNotFound : Bool) :
    Option (ECS × Nat) :=
  if GetComponentBitPosition w tok = tombstone then
    if registerIfNotFound then
      match RegisterComponent w tok [] with
      | none => none
      | some w1 =>
        if GetComponentBitPosition w1 tok < w1.componentPools.length
        then some (w1, GetComponentBitPosition w1 tok) else none
    else none
  else
    if GetComponentBitPosition w tok < w.componentPools.length
    then some (w, GetComponentBitPosition w tok) else none

/-- `ECS::CreateEntity(name)`: returns the new state and the fresh id. -/
def insertName (l : List (Nat × String)) (id : Nat) (name : String) :
    List (Nat × String) :=
  match l.lookup id with
  | some _ => l.map (fun p => if p.1 = id then (id, name) else p)
  | none => (id, name) :: l

def CreateEntity (w : ECS) (name : String) : Option (ECS × Nat) :=
  if w.availableEntities.length = 0 then
    if w.maxEntityID < MAX_ENTITIES then
      let id := w.maxEntityID
      let w1 : ECS := { w with maxEntityID := w.maxEntityID + 1 }
      if id = tombstone then none
      else if name = "" then some (w1, id)
      else some ({ w1 with entityNames := insertName w1.entityNames id name }, id)
    else none
  else
    let id := w.availableEntities.getLastD 0
    let w1 : ECS := { w with availableEntities := w.availableEntities.dropLast }
    if id = tombstone then none
    else if name = "" then some (w1, id)
    else some ({ w1 with entityNames := insertName w1.entityNames id name }, id)

/-- `ECS::GetEntityName(id)` (`none` is the invalid-entity abort). -/
def GetEntityName (w : ECS) (id : Nat) : Option String :=
  if id = NULL_ENTITY then none
  else if w.maxEntityID ≤ id then none
  else
    match w.entityNames.lookup id with
    | none => some "Entity"
    | some n => some n

/-- `ECS::DeleteEntity(id&)`: erases the name, pushes the id on the free pool
and overwrites the caller's handle (returned as the second component) with
`NULL_ENTITY`.  Component pools are not touched. -/
def DeleteEntity (w : ECS) (id : Nat) : Option (ECS × Nat) :=
  if id = NULL_ENTITY then none
  else if w.maxEntityID ≤ id then none
  else some ({ w with
    entityNames := w.entityNames.filter (fun p => p.1 != id),
    availableEntities := w.availableEntities ++ [id] }, NULL_ENTITY)

/-- `ECS::Has<T>(id)`. -/
def Has (w : ECS) (tok id : Nat) : Option Bool :=
  match GetComponentPool w tok false with
  | none => none
  | some (w1, bp) => some ((poolAt w1 bp).Get id).isSome

/-- `ECS::HasAll<Ts...>(id)`: short-circuiting fold of `Has`. -/
def HasAll (w : ECS) (toks : List Nat) (id : Nat) : Option Bool :=
  match toks with
  | [] => some true
  | t :: ts =>
    match Has w t id with
    | none => none
    | some b => if b then HasAll w ts id else some false

/-- `ECS::HasRequired<T>(id)`: aborts when the component is absent. -/
def HasRequired (w : ECS) (tok id : Nat) : Option Bool :=
  match GetComponentPool w tok false with
  | none => none
  | some (w1, bp) =>
    match (poolAt w1 bp).Get id with
    | some _ => some true
    | none => none

/-- `ECS::HasAllRequired<Ts...>(id)`. -/
def HasAllRequired (w : ECS) (toks : List Nat) (id : Nat) : Option Bool :=
  match toks with
  | [] => some true
  | t :: ts =>
    match HasRequired w t id with
    | none => none
    | some b => if b then HasAllRequired w ts id else some false

/-- `ECS::HasRemoved<T>(id)`: aborts when the component is still present. -/
def HasRemoved (w : ECS) (tok id : Nat) : Option Bool :=
  match GetComponentPool w tok false with
  | none => none
  | some (w1, bp) =>
    match (poolAt w1 bp).Get id with
    | some _ => none
    | none => some true

/-- `ECS::HasRemovedAll<Ts...>(id)`. -/
def HasRemovedAll (w : ECS) (toks : List Nat) (id : Nat) : Option Bool :=
  match toks with
  | [] => some true
  | t :: ts =>
    match HasRemoved w t id with
    | none => none
    | some b => if b then HasRemovedAll w ts id else some false

/-- `ECS::Add<T, RequiredComponents...>(id, component)`: returns the new state
and the value behind the returned reference. -/
def Add (w : ECS) (tok id v : Nat) (declared : List Nat) : Option (ECS × Nat) :=
  if id = NULL_ENTITY then none
  else if w.maxEntityID ≤ id then none
  else
    match GetComponentPool w tok true with
    | none => none
    | some (w1, bp) =>
      match (poolAt w1 bp).Get id with
      | some _ => none
      | none =>
        match GetMask w1 declared with
        | none => none
        | some incoming =>
          match GetRequiredComponent w1 tok with
          | none => none
          | some required =>
            if incoming ^^^ required ≠ 0 then none
            else
              match HasAllRequired w1 declared id with
              | none => none
              | some b =>
                if b then
                  some ({ w1 with componentPools :=
                    w1.componentPools.set bp ((poolAt w1 bp).Set id v) }, v)
                else none

/-- `ECS::Get<T>(id)`: fatal when the entity is invalid or lacks `T`. -/
def Get (w : ECS) (tok id : Nat) : Option Nat :=
  if id = NULL_ENTITY then none
  else if w.maxEntityID ≤ id then none
  else
    match GetComponentPool w tok false with
    | none => none
    | some (w1, bp) =>
      match (poolAt w1 bp).Get id with
      | none => none
      | some v => some v

/-- `ECS::Remove<T, SustainedComponents...>(id)`. -/
def Remove (w : ECS) (tok id : Nat) (declared : List Nat) : Option ECS :=
  if id = NULL_ENTITY then none
  else if w.maxEntityID ≤ id then none
  else
    match GetComponentPool w tok false with
    | none => none
    | some (w1, bp) =>
      match (poolAt w1 bp).Get id with
      | none => none
      | some _ =>
        match GetMask w1 declared with
        | none => none
        | some incoming =>
          match GetSustainedComponent w1 tok with
          | none => none
          | some sustained =>
            if incoming ^^^ sustained ≠ 0 then none
            else
              match HasRemovedAll w1 declared id with
              | none => none
              | some b =>
                if b then
                  match (poolAt w1 bp).Delete id with
                  | none => none
                  | some pool1 =>
                    some { w1 with componentPools := w1.componentPools.set bp pool1 }
                else none

/-- Registry/pool consistency: the pool table respects the `MAX_COMPONENTS`
capacity and every registered type's bit position indexes an existing pool.
Holds in every reachable engine state (registration checks the capacity and
appends the pool it indexes). -/
def Consistent (w : ECS) : Prop :=
  w.componentPools.length ≤ MAX_COMPONENTS ∧
  ∀ p ∈ w.componentBitPosition, p.2.bitPosition < w.componentPools.length

instance (w : ECS) : Decidable (Consistent w) := by
  unfold Consistent
  infer_instance

end ECS

namespace SparseSet

variable {T : Type} [Inhabited T]

theorem Get_none_iff (s : SparseSet T) (id : Nat) :
    Get s id = none ↔ GetDenseIndex s id = tombstone := by
  rw [Get_eq]
  by_cases h : GetDenseIndex s id = tombstone <;> simp [h]

theorem Get_Set_self_present (s : SparseSet T) (id : Nat) (v : T)
    (hpres : GetDenseIndex s id ≠ tombstone)
    (hin : GetDenseIndex s id < s.dense.length) :
    Get (Set s id v) id = some v := by
  rw [Get_eq, GetDenseIndex_Set_present s id v hpres, if_pos hpres,
    Set_present s id v hpres]
  show some ((s.dense.set (GetDenseIndex s id) v).getD (GetDenseIndex s id) default)
    = some v
  simp only [List.getD_eq_getElem?_getD]
  rw [List.getElem?_set_self hin]
  rfl

theorem Get_Set_self_new (s : SparseSet T) (id : Nat) (v : T)
    (habs : GetDenseIndex s id = tombstone) (hlen : s.dense.length < tombstone) :
    Get (Set s id v) id = some v := by
  rw [Get_eq, GetDenseIndex_Set_new_self s id v habs,
    if_pos (by omega : s.dense.length ≠ tombstone), Set_new s id v habs]
  show some ((s.dense ++ [v]).getD s.dense.length default) = some v
  simp [List.getD_eq_getElem?_getD, List.getElem?_concat_length]

/-- After a successful `Delete(id)`, `id` has no entry (no well-formedness
assumption needed: the code tombstones `id`'s sparse slot last). -/
theorem Get_Delete_self (s : SparseSet T) (id : Nat) (s1 : SparseSet T)
    (hdel : Delete s id = some s1) : Get s1 id = none := by
  by_cases hcond : GetDenseIndex s id = tombstone ∨ s.dense.length = 0
  · rw [Delete_none s id hcond] at hdel
    exact absurd hdel (by simp)
  · push_neg at hcond
    rw [Delete_eq s id hcond.1 hcond.2] at hdel
    rw [Option.some.injEq] at hdel
    rw [Get_none_iff, ← hdel]
    exact (GetDenseIndex_of_eq_pages _
      (SetDenseIndex (SetDenseIndex s (s.denseToEntity.getLastD 0) (GetDenseIndex s id))
        id tombstone) rfl id).trans (GetDenseIndex_SetDenseIndex_self _ id tombstone)

end SparseSet

theorem mem_of_lookup {α β : Type} [BEq α] [LawfulBEq α] {l : List (α × β)} {k : α}
    {b : β} (h : l.lookup k = some b) : (k, b) ∈ l := by
  induction l with
  | nil => simp [List.lookup] at h
  | cons p ps ih =>
    rw [List.lookup] at h
    cases hkk : (k == p.1) with
    | true =>
      simp only [hkk] at h
      rw [Option.some.injEq] at h
      have h1 : k = p.1 := by simpa using hkk
      rw [List.mem_cons]
      exact Or.inl (by rw [h1, ← h])
    | false =>
      simp only [hkk] at h
      rw [List.mem_cons]
      exact Or.inr (ih h)

theorem getLastD_mem {l : List Nat} (h : l ≠ []) (d : Nat) : l.getLastD d ∈ l := by
  rw [SparseSet.getLastD_eq_getD, List.getD_eq_getElem?_getD]
  have hlen : l.length - 1 < l.length := by
    cases l with
    | nil => exact absurd rfl h
    | cons a as => simp
  rw [List.getElem?_eq_getElem hlen]
  exact List.getElem?_mem (List.getElem?_eq_getElem hlen)

namespace ECS

/-- Every pool visible through `poolAt` is well-formed as soon as each stored
pool is (an out-of-range read yields the empty pool). -/
theorem WF_poolAt (w : ECS) (bp : Nat)
    (hpools : ∀ p ∈ w.componentPools, SparseSet.WF p) :
    SparseSet.WF (poolAt w bp) := by
  unfold poolAt
  rw [List.getD_eq_getElem?_getD]
  cases hx : w.componentPools[bp]? with
  | none => exact SparseSet.WF_init
  | some p => exact hpools p (List.getElem?_mem hx)

theorem GetComponentBitPosition_of_lookup (w : ECS) (tok : Nat) (info : ComponentInfo)
    (hreg : w.componentBitPosition.lookup tok = some info) :
    GetComponentBitPosition w tok = info.bitPosition := by
  unfold GetComponentBitPosition
  rw [hreg]

/-- For a registered type in a consistent state, `GetComponentPool` succeeds
(with either flag) and returns the unchanged state with the type's bit
position. -/
theorem GetComponentPool_registered (w : ECS) (tok : Nat) (info : ComponentInfo)
    (r : Bool) (hreg : w.componentBitPosition.lookup tok = some info)
    (hcons : Consistent w) :
    GetComponentPool w tok r = some (w, info.bitPosition) := by
  obtain ⟨hlen, hall⟩ := hcons
  have hbp := GetComponentBitPosition_of_lookup w tok info hreg
  have hmem := mem_of_lookup hreg
  have hlt : info.bitPosition < w.componentPools.length := hall (tok, info) hmem
  have hmc : MAX_COMPONENTS < tombstone := by decide
  have hne : info.bitPosition ≠ tombstone := by omega
  unfold GetComponentPool
  rw [hbp, if_neg hne, if_pos hlt]

/-- Inversion of a successful `GetComponentPool` call with the register flag
off: the state is returned unchanged and the index is the registered bit
position, in range. -/
theorem GetComponentPool_false_inv (w : ECS) (tok : Nat) (w1 : ECS) (bp : Nat)
    (h : GetComponentPool w tok false = some (w1, bp)) :
    w1 = w ∧ bp = GetComponentBitPosition w tok ∧ bp ≠ tombstone ∧
      bp < w.componentPools.length := by
  unfold GetComponentPool at h
  by_cases h1 : GetComponentBitPosition w tok = tombstone
  · rw [if_pos h1] at h
    exact absurd h (by simp)
  · rw [if_neg h1] at h
    by_cases h2 : GetComponentBitPosition w tok < w.componentPools.length
    · rw [if_pos h2] at h
      rw [Option.some.injEq, Prod.mk.injEq] at h
      obtain ⟨hw, hbp⟩ := h
      exact ⟨hw.symm, hbp.symm, by rw [← hbp]; exact h1, by rw [← hbp]; exact h2⟩
    · rw [if_neg h2] at h
      exact absurd h (by simp)

/-- The engine state after writing pool number `bp` in place (the effect of a
mutation through the reference returned by `GetComponentPool`). -/
def setPool (w : ECS) (bp : Nat) (p : SparseSet Nat) : ECS :=
  { w with componentPools := w.componentPools.set bp p }

theorem poolAt_set_self (w : ECS) (bp : Nat) (p : SparseSet Nat)
    (h : bp < w.componentPools.length) :
    poolAt { w with componentPools := w.componentPools.set bp p } bp = p := by
  unfold poolAt
  show (w.componentPools.set bp p).getD bp default = p
  rw [List.getD_eq_getElem?_getD, List.getElem?_set_self (by simpa using h)]
  rfl

theorem poolAt_setPool_self (w : ECS) (bp : Nat) (p : SparseSet Nat)
    (h : bp < w.componentPools.length) :
    poolAt (setPool w bp p) bp = p :=
  poolAt_set_self w bp p h

theorem Has_eval (w : ECS) (tok bp id : Nat)
    (hbp : GetComponentBitPosition w tok = bp) (hbpne : bp ≠ tombstone)
    (hbplt : bp < w.componentPools.length) :
    Has w tok id = some ((poolAt w bp).Get id).isSome := by
  unfold Has GetComponentPool
  rw [hbp, if_neg hbpne, if_pos hbplt]

theorem Get_eval (w : ECS) (tok bp id : Nat)
    (hbp : GetComponentBitPosition w tok = bp) (hbpne : bp ≠ tombstone)
    (hbplt : bp < w.componentPools.length) :
    Get w tok id =
      if id = NULL_ENTITY then none
      else if w.maxEntityID ≤ id then none
      else
        match (poolAt w bp).Get id with
        | none => none
        | some v => some v := by
  unfold Get GetComponentPool
  rw [hbp, if_neg hbpne, if_pos hbplt]

end ECS

/-- C1: after any sequence of `Set`/`Delete`/`Clear` operations on a fresh
sparse set (any physically realisable sequence: at most `size_t`-many
operations), the dense and dense-to-entity arrays have equal length and every
occupied dense slot `i` satisfies `sparse[dense_to_entity[i]] = i`, including
the edge case where `Delete` removes the entity stored in the last dense
slot. -/
theorem c1_sparse_invariants (ops : List SSOp) (s' : SparseSet Nat)
    (hops : ops.length ≤ tombstone)
    (hrun : runSSOps SparseSet.init ops = some s') :
    s'.dense.length = s'.denseToEntity.length ∧
    ∀ i : Nat, i < s'.dense.length →
      SparseSet.GetDenseIndex s' (s'.denseToEntity.getD i 0) = i := by
  obtain ⟨⟨h1, h2, h3, h4⟩, -⟩ :=
    WF_runSSOps ops SparseSet.init SparseSet.WF_init
      (by simpa [SparseSet.init] using hops) s' hrun
  exact ⟨h1, fun i hi => h3 i (by omega)⟩

/-- Witness for C1: a concrete run ending in two `Delete`s, the second of
which removes the last remaining dense element. -/
theorem c1_sparse_invariants_witness :
    ([SSOp.sset 0 10, SSOp.sset 1 20, SSOp.sdel 1, SSOp.sdel 0] : List SSOp).length
        ≤ tombstone ∧
    runSSOps SparseSet.init [SSOp.sset 0 10, SSOp.sset 1 20, SSOp.sdel 1, SSOp.sdel 0]
        = some (⟨[[tombstone, tombstone]], [], []⟩ : SparseSet Nat) ∧
    ((⟨[[tombstone, tombstone]], [], []⟩ : SparseSet Nat).dense.length
        = (⟨[[tombstone, tombstone]], [], []⟩ : SparseSet Nat).denseToEntity.length ∧
      ∀ i : Nat, i < (⟨[[tombstone, tombstone]], [], []⟩ : SparseSet Nat).dense.length →
        SparseSet.GetDenseIndex (⟨[[tombstone, tombstone]], [], []⟩ : SparseSet Nat)
          ((⟨[[tombstone, tombstone]], [], []⟩ : SparseSet Nat).denseToEntity.getD i 0)
          = i) :=
  ⟨by decide, by decide,
    c1_sparse_invariants [SSOp.sset 0 10, SSOp.sset 1 20, SSOp.sdel 1, SSOp.sdel 0]
      _ (by decide) (by decide)⟩

/-- C7: overwriting an already-present entity via `Set` changes no entity's
dense index (in particular not the overwritten entity's own), and stores the
new value in place. -/
theorem c7_overwrite_keeps_position (s : SparseSet Nat) (id v : Nat)
    (hpres : SparseSet.GetDenseIndex s id ≠ tombstone)
    (hin : SparseSet.GetDenseIndex s id < s.dense.length) :
    (∀ e : Nat, SparseSet.GetDenseIndex (s.Set id v) e = SparseSet.GetDenseIndex s e) ∧
    SparseSet.Get (s.Set id v) id = some v ∧
    (s.Set id v).dense.length = s.dense.length := by
  refine ⟨SparseSet.GetDenseIndex_Set_present s id v hpres, ?_, ?_⟩
  · exact SparseSet.Get_Set_self_present s id v hpres hin
  · rw [SparseSet.Set_present s id v hpres]
    simp

/-- Witness for C7 at a two-element sparse set. -/
theorem c7_overwrite_keeps_position_witness :
    SparseSet.GetDenseIndex (SparseSet.Set (SparseSet.Set SparseSet.init 5 1) 9 2) 5
        ≠ tombstone ∧
    SparseSet.GetDenseIndex (SparseSet.Set (SparseSet.Set SparseSet.init 5 1) 9 2) 5
        < (SparseSet.Set (SparseSet.Set SparseSet.init 5 1) 9 2).dense.length ∧
    ((∀ e : Nat, SparseSet.GetDenseIndex
        ((SparseSet.Set (SparseSet.Set SparseSet.init 5 1) 9 2).Set 5 77) e
        = SparseSet.GetDenseIndex (SparseSet.Set (SparseSet.Set SparseSet.init 5 1) 9 2) e) ∧
      SparseSet.Get ((SparseSet.Set (SparseSet.Set SparseSet.init 5 1) 9 2).Set 5 77) 5
        = some 77 ∧
      ((SparseSet.Set (SparseSet.Set SparseSet.init 5 1) 9 2).Set 5 77).dense.length
        = (SparseSet.Set (SparseSet.Set SparseSet.init 5 1) 9 2).dense.length) :=
  ⟨by decide, by decide,
    c7_overwrite_keeps_position (SparseSet.Set (SparseSet.Set SparseSet.init 5 1) 9 2)
      5 77 (by decide) (by decide)⟩

/-- C10 (implicit): the paged sparse lookup is total: any id whose page or
page slot was never allocated reads the tombstone, so `Get` yields null and
`ECS::Has` yields `false` rather than faulting. -/
theorem c10_lookup_total_on_unallocated (w : ECS) (tok id bp : Nat)
    (hpool : ECS.GetComponentPool w tok false = some (w, bp))
    (h : (ECS.poolAt w bp).sparsePages.length ≤ id / SPARSE_MAX_SIZE ∨
      ((ECS.poolAt w bp).sparsePages.getD (id / SPARSE_MAX_SIZE) []).length
        ≤ id % SPARSE_MAX_SIZE) :
    SparseSet.GetDenseIndex (ECS.poolAt w bp) id = tombstone ∧
    SparseSet.Get (ECS.poolAt w bp) id = none ∧
    ECS.Has w tok id = some false := by
  have hG : SparseSet.GetDenseIndex (ECS.poolAt w bp) id = tombstone := by
    rw [SparseSet.GetDenseIndex_eq]
    rcases h with h | h
    · have hnone : (ECS.poolAt w bp).sparsePages[id / SPARSE_MAX_SIZE]? = none :=
        List.getElem?_eq_none h
      rw [hnone]
      simp
    · rw [List.getD_eq_getElem?_getD] at h
      have hnone : ((ECS.poolAt w bp).sparsePages[id / SPARSE_MAX_SIZE]?.getD
          [])[id % SPARSE_MAX_SIZE]? = none := List.getElem?_eq_none h
      rw [List.getD_eq_getElem?_getD, hnone]
      rfl
  have hget : SparseSet.Get (ECS.poolAt w bp) id = none :=
    (SparseSet.Get_none_iff _ id).mpr hG
  refine ⟨hG, hget, ?_⟩
  unfold ECS.Has
  rw [hpool]
  show some ((ECS.poolAt w bp).Get id).isSome = some false
  rw [hget]
  rfl

/-- Witness for C10: a freshly registered component pool has no pages, so an
id never created (4242) reads as absent instead of faulting. -/
theorem c10_lookup_total_on_unallocated_witness :
    ECS.GetComponentPool ((ECS.RegisterComponent ECS.init 0 []).getD ECS.init) 0 false
        = some ((ECS.RegisterComponent ECS.init 0 []).getD ECS.init, 0) ∧
    ((ECS.poolAt ((ECS.RegisterComponent ECS.init 0 []).getD ECS.init) 0).sparsePages.length
        ≤ 4242 / SPARSE_MAX_SIZE ∨
      ((ECS.poolAt ((ECS.RegisterComponent ECS.init 0 []).getD ECS.init) 0).sparsePages.getD
          (4242 / SPARSE_MAX_SIZE) []).length ≤ 4242 % SPARSE_MAX_SIZE) ∧
    (SparseSet.GetDenseIndex
        (ECS.poolAt ((ECS.RegisterComponent ECS.init 0 []).getD ECS.init) 0) 4242
        = tombstone ∧
      SparseSet.Get (ECS.poolAt ((ECS.RegisterComponent ECS.init 0 []).getD ECS.init) 0)
        4242 = none ∧
      ECS.Has ((ECS.RegisterComponent ECS.init 0 []).getD ECS.init) 0 4242
        = some false) :=
  ⟨by decide, by decide,
    c10_lookup_total_on_unallocated ((ECS.RegisterComponent ECS.init 0 []).getD ECS.init)
      0 4242 0 (by decide) (by decide)⟩

/-- C6 as stated is false: `Has<T>` on an unregistered component type hits the
fatal assert inside `GetComponentPool` (modelled as `none`), even though every
presence check on a registered type is total.  Concretely, `Has` on the fresh
engine with the never-registered type token 0 aborts. -/
theorem c6_counterexample : ECS.Has ECS.init 0 0 = none := by decide

/-- C6 amended: for every REGISTERED component type (in a registry-consistent
state) and every entity id, `Has` returns a boolean and never aborts, and
`HasAll` likewise whenever every listed type is registered. -/
theorem c6_presence_checks_total_when_registered (w : ECS) (tok id : Nat)
    (toks : List Nat) (hcons : ECS.Consistent w)
    (hreg : w.componentBitPosition.lookup tok ≠ none)
    (hregs : ∀ t ∈ toks, w.componentBitPosition.lookup t ≠ none) :
    (∃ b : Bool, ECS.Has w tok id = some b) ∧
    (∃ b : Bool, ECS.HasAll w toks id = some b) := by
  have hone : ∀ t : Nat, w.componentBitPosition.lookup t ≠ none →
      ∃ b : Bool, ECS.Has w t id = some b := by
    intro t ht
    cases hx : w.componentBitPosition.lookup t with
    | none => exact absurd hx ht
    | some info =>
      refine ⟨((ECS.poolAt w info.bitPosition).Get id).isSome, ?_⟩
      unfold ECS.Has
      rw [ECS.GetComponentPool_registered w t info false hx hcons]
  refine ⟨hone tok hreg, ?_⟩
  induction toks with
  | nil => exact ⟨true, rfl⟩
  | cons t ts ih =>
    obtain ⟨b, hb⟩ := hone t (hregs t (by simp))
    obtain ⟨b2, hb2⟩ := ih (fun u hu => hregs u (by simp [hu]))
    cases b with
    | false =>
      refine ⟨false, ?_⟩
      unfold ECS.HasAll
      rw [hb]
      rfl
    | true =>
      refine ⟨b2, ?_⟩
      unfold ECS.HasAll
      rw [hb]
      simpa using hb2

/-- Witness for the amended C6: one registered type, queried for an arbitrary
id (7), plus a `HasAll` over the registered list `[0]`. -/
theorem c6_presence_checks_total_when_registered_witness :
    ECS.Consistent ((ECS.RegisterComponent ECS.init 0 []).getD ECS.init) ∧
    ((ECS.RegisterComponent ECS.init 0 []).getD ECS.init).componentBitPosition.lookup 0
        ≠ none ∧
    (∀ t ∈ ([0] : List Nat),
      ((ECS.RegisterComponent ECS.init 0 []).getD ECS.init).componentBitPosition.lookup t
        ≠ none) ∧
    ((∃ b : Bool, ECS.Has ((ECS.RegisterComponent ECS.init 0 []).getD ECS.init) 0 7
        = some b) ∧
      (∃ b : Bool, ECS.HasAll ((ECS.RegisterComponent ECS.init 0 []).getD ECS.init)
        [0] 7 = some b)) :=
  ⟨by decide, by decide, by decide,
    c6_presence_checks_total_when_registered
      ((ECS.RegisterComponent ECS.init 0 []).getD ECS.init) 0 7 [0]
      (by decide) (by decide) (by decide)⟩

/-- C9: deleting a valid entity erases its name, pushes its id on the free
pool and hands back the sentinel `NULL_ENTITY` for the caller's handle, while
leaving every component pool (and the registry and the high-water mark)
completely untouched. -/
theorem c9_delete_entity_effects (w : ECS) (id : Nat)
    (h1 : id ≠ NULL_ENTITY) (h2 : id < w.maxEntityID) :
    ∃ w', ECS.DeleteEntity w id = some (w', NULL_ENTITY) ∧
      w'.componentPools = w.componentPools ∧
      w'.componentBitPosition = w.componentBitPosition ∧
      w'.maxEntityID = w.maxEntityID ∧
      w'.availableEntities = w.availableEntities ++ [id] ∧
      w'.entityNames = w.entityNames.filter (fun p => p.1 != id) := by
  refine ⟨{ w with
    entityNames := w.entityNames.filter (fun p => p.1 != id),
    availableEntities := w.availableEntities ++ [id] }, ?_, rfl, rfl, rfl, rfl, rfl⟩
  unfold ECS.DeleteEntity
  rw [if_neg h1, if_neg (by omega)]

/-- Witness for C9: delete entity 0 from an engine with one live entity and a
registered (non-empty) component pool; the pool survives untouched. -/
theorem c9_delete_entity_effects_witness :
    (0 : Nat) ≠ NULL_ENTITY ∧
    (0 : Nat) < (⟨[], [(0, "hero")], [SparseSet.Set SparseSet.init 0 9],
      [(0, ⟨0, 0, 0⟩)], 1⟩ : ECS).maxEntityID ∧
    (∃ w', ECS.DeleteEntity (⟨[], [(0, "hero")], [SparseSet.Set SparseSet.init 0 9],
        [(0, ⟨0, 0, 0⟩)], 1⟩ : ECS) 0 = some (w', NULL_ENTITY) ∧
      w'.componentPools = (⟨[], [(0, "hero")], [SparseSet.Set SparseSet.init 0 9],
        [(0, ⟨0, 0, 0⟩)], 1⟩ : ECS).componentPools ∧
      w'.componentBitPosition = (⟨[], [(0, "hero")], [SparseSet.Set SparseSet.init 0 9],
        [(0, ⟨0, 0, 0⟩)], 1⟩ : ECS).componentBitPosition ∧
      w'.maxEntityID = (⟨[], [(0, "hero")], [SparseSet.Set SparseSet.init 0 9],
        [(0, ⟨0, 0, 0⟩)], 1⟩ : ECS).maxEntityID ∧
      w'.availableEntities = (⟨[], [(0, "hero")], [SparseSet.Set SparseSet.init 0 9],
        [(0, ⟨0, 0, 0⟩)], 1⟩ : ECS).availableEntities ++ [0] ∧
      w'.entityNames = (⟨[], [(0, "hero")], [SparseSet.Set SparseSet.init 0 9],
        [(0, ⟨0, 0, 0⟩)], 1⟩ : ECS).entityNames.filter (fun p => p.1 != 0)) :=
  ⟨by decide, by decide,
    c9_delete_entity_effects (⟨[], [(0, "hero")], [SparseSet.Set SparseSet.init 0 9],
      [(0, ⟨0, 0, 0⟩)], 1⟩ : ECS) 0 (by decide) (by decide)⟩

/-- C5: whenever `ECS::Remove<T>` succeeds on entity `e` (with well-formed
pools, as in every reachable state), `Has<T>(e)` afterwards returns `false`,
and for every other entity `e2` the observable value of `Get<T>(e2)` is
unchanged — swap-remove may move dense records but never changes any other
entity's stored value. -/
theorem c5_remove_swap_correctness (w : ECS) (tok e : Nat) (declared : List Nat)
    (w' : ECS) (hpools : ∀ p ∈ w.componentPools, SparseSet.WF p)
    (hrem : ECS.Remove w tok e declared = some w') :
    ECS.Has w' tok e = some false ∧
    (∀ e2 : Nat, e2 ≠ e → ECS.Get w' tok e2 = ECS.Get w tok e2) := by
  unfold ECS.Remove at hrem
  by_cases h1 : e = NULL_ENTITY
  · rw [if_pos h1] at hrem
    exact absurd hrem (by simp)
  rw [if_neg h1] at hrem
  by_cases h2 : w.maxEntityID ≤ e
  · rw [if_pos h2] at hrem
    exact absurd hrem (by simp)
  rw [if_neg h2] at hrem
  cases hgp : ECS.GetComponentPool w tok false with
  | none =>
    rw [hgp] at hrem
    exact absurd hrem (by simp)
  | some pr =>
    obtain ⟨w1, bp⟩ := pr
    obtain ⟨hw1, hbpeq, hbpne, hbplt⟩ := ECS.GetComponentPool_false_inv w tok w1 bp hgp
    subst hw1
    rw [hgp] at hrem
    simp only at hrem
    cases hget : (ECS.poolAt w1 bp).Get e with
    | none =>
      rw [hget] at hrem
      simp at hrem
    | some x =>
      rw [hget] at hrem
      simp only at hrem
      cases hmask : ECS.GetMask w1 declared with
      | none =>
        rw [hmask] at hrem
        simp at hrem
      | some incoming =>
        rw [hmask] at hrem
        simp only at hrem
        cases hsus : ECS.GetSustainedComponent w1 tok with
        | none =>
          rw [hsus] at hrem
          simp at hrem
        | some sustained =>
          rw [hsus] at hrem
          simp only at hrem
          by_cases hxor : incoming ^^^ sustained ≠ 0
          · rw [if_pos hxor] at hrem
            simp at hrem
          · rw [if_neg hxor] at hrem
            cases hrall : ECS.HasRemovedAll w1 declared e with
            | none =>
              rw [hrall] at hrem
              simp at hrem
            | some b =>
              rw [hrall] at hrem
              simp only at hrem
              cases b with
              | false => simp at hrem
              | true =>
                rw [if_pos rfl] at hrem
                cases hdel : (ECS.poolAt w1 bp).Delete e with
                | none =>
                  rw [hdel] at hrem
                  simp at hrem
                | some pool1 =>
                  rw [hdel] at hrem
                  simp only [Option.some.injEq] at hrem
                  subst hrem
                  -- delete specification on the (well-formed) pool of `tok`
                  have hWFpool := ECS.WF_poolAt w1 bp hpools
                  have hidx : SparseSet.GetDenseIndex (ECS.poolAt w1 bp) e ≠ tombstone := by
                    intro hc
                    rw [(SparseSet.Get_none_iff _ _).mpr hc] at hget
                    exact absurd hget (by simp)
                  obtain ⟨s2, hdel2, hWF2, hlen2, hG2, hpres2⟩ :=
                    SparseSet.Delete_spec (ECS.poolAt w1 bp) e hWFpool hidx
                  rw [hdel] at hdel2
                  rw [Option.some.injEq] at hdel2
                  subst hdel2
                  -- facts about the updated engine record
                  have hbp1 : ECS.GetComponentBitPosition w1 tok = bp := hbpeq.symm
                  have hbp_rec : ECS.GetComponentBitPosition
                      { w1 with componentPools := w1.componentPools.set bp pool1 } tok
                      = bp := hbp1
                  have hlt_rec : bp < ({ w1 with
                      componentPools := w1.componentPools.set bp pool1 } : ECS).componentPools.length := by
                    simpa using hbplt
                  constructor
                  · rw [ECS.Has_eval _ tok bp e hbp_rec hbpne hlt_rec,
                      ECS.poolAt_set_self w1 bp pool1 hbplt,
                      SparseSet.Get_Delete_self (ECS.poolAt w1 bp) e pool1 hdel]
                    rfl
                  · intro e2 he2
                    rw [ECS.Get_eval _ tok bp e2 hbp_rec hbpne hlt_rec,
                      ECS.Get_eval w1 tok bp e2 hbp1 hbpne hbplt,
                      ECS.poolAt_set_self w1 bp pool1 hbplt,
                      hpres2 e2 he2]

/-- Engine state for the C5 witness: one registered type (token 3, bit 0),
entities 0 and 1 holding values 10 and 20. -/
def c5State : ECS := ⟨[], [], [⟨[[0, 1]], [10, 20], [0, 1]⟩], [(3, ⟨0, 0, 0⟩)], 2⟩

/-- Engine state after `Remove` on entity 0: the last record (entity 1,
value 20) moved into dense slot 0. -/
def c5StateAfter : ECS :=
  ⟨[], [], [⟨[[tombstone, 0]], [20], [1]⟩], [(3, ⟨0, 0, 0⟩)], 2⟩

/-- Witness for C5: removing entity 0's component relocates entity 1's record
(swap-remove from the first dense slot); afterwards `Has` on 0 is `false` and
every `Get` on another entity is unchanged. -/
theorem c5_remove_swap_correctness_witness :
    ECS.Has c5StateAfter 3 0 = some false ∧
    (∀ e2 : Nat, e2 ≠ 0 → ECS.Get c5StateAfter 3 e2 = ECS.Get c5State 3 e2) :=
  c5_remove_swap_correctness c5State 3 0 [] c5StateAfter
    (by
      intro p hp
      have hv : p = ⟨[[0, 1]], [10, 20], [0, 1]⟩ := by simpa [c5State] using hp
      rw [hv]
      exact SparseSet.WF_Set (SparseSet.Set SparseSet.init 0 10) 1 20
        (SparseSet.WF_Set SparseSet.init 0 10 SparseSet.WF_init (by decide))
        (by decide))
    (by decide)

/-- A successfully assembled mask certifies that every listed type is
registered (`SetComponentBit` would have aborted otherwise). -/
theorem GetMask_registered (w : ECS) (toks : List Nat) (m : Nat)
    (h : ECS.GetMask w toks = some m) :
    ∀ t ∈ toks, w.componentBitPosition.lookup t ≠ none := by
  induction toks generalizing m with
  | nil =>
    intro t ht
    simp at ht
  | cons a as ih =>
    intro t ht
    unfold ECS.GetMask at h
    cases hm : ECS.GetMask w as with
    | none =>
      rw [hm] at h
      simp at h
    | some m2 =>
      rw [hm] at h
      simp only at h
      by_cases hb : ECS.GetComponentBitPosition w a = tombstone
      · rw [if_pos hb] at h
        simp at h
      · rw [if_neg hb] at h
        rcases List.mem_cons.mp ht with ht | ht
        · subst ht
          intro hc
          apply hb
          unfold ECS.GetComponentBitPosition
          rw [hc]
        · exact ih m2 hm t ht

/-- `HasAllRequired` answers `some true` exactly when the entity holds every
listed (registered) type; on any absent type it aborts instead. -/
theorem HasAllRequired_true_iff (w : ECS) (declared : List Nat) (id : Nat)
    (hcons : ECS.Consistent w)
    (hregs : ∀ t ∈ declared, w.componentBitPosition.lookup t ≠ none) :
    ECS.HasAllRequired w declared id = some true ↔
      ∀ t ∈ declared,
        (ECS.poolAt w (ECS.GetComponentBitPosition w t)).Get id ≠ none := by
  induction declared with
  | nil => simp [ECS.HasAllRequired]
  | cons a as ih =>
    cases hx : w.componentBitPosition.lookup a with
    | none => exact absurd hx (hregs a (by simp))
    | some info =>
      have hbit : ECS.GetComponentBitPosition w a = info.bitPosition :=
        ECS.GetComponentBitPosition_of_lookup w a info hx
      have hhr : ECS.HasRequired w a id =
          (match (ECS.poolAt w info.bitPosition).Get id with
           | some _ => some true
           | none => none) := by
        unfold ECS.HasRequired
        rw [ECS.GetComponentPool_registered w a info false hx hcons]
      unfold ECS.HasAllRequired
      rw [hhr]
      cases hget : (ECS.poolAt w info.bitPosition).Get id with
      | none =>
        simp only
        constructor
        · intro hc
          exact absurd hc (by simp)
        · intro hall
          exact absurd (by rw [hbit]; exact hget) (hall a (by simp))
      | some x =>
        simp only
        rw [if_pos trivial, ih (fun t ht => hregs t (by simp [ht]))]
        constructor
        · intro hall t ht
          rcases List.mem_cons.mp ht with ht | ht
          · subst ht
            rw [hbit, hget]
            simp
          · exact hall t ht
        · intro hall t ht
          exact hall t (by simp [ht])

/-- `HasRemovedAll` answers `some true` exactly when the entity holds none of
the listed (registered) types; on any still-present type it aborts instead. -/
theorem HasRemovedAll_true_iff (w : ECS) (declared : List Nat) (id : Nat)
    (hcons : ECS.Consistent w)
    (hregs : ∀ t ∈ declared, w.componentBitPosition.lookup t ≠ none) :
    ECS.HasRemovedAll w declared id = some true ↔
      ∀ t ∈ declared,
        (ECS.poolAt w (ECS.GetComponentBitPosition w t)).Get id = none := by
  induction declared with
  | nil => simp [ECS.HasRemovedAll]
  | cons a as ih =>
    cases hx : w.componentBitPosition.lookup a with
    | none => exact absurd hx (hregs a (by simp))
    | some info =>
      have hbit : ECS.GetComponentBitPosition w a = info.bitPosition :=
        ECS.GetComponentBitPosition_of_lookup w a info hx
      have hhr : ECS.HasRemoved w a id =
          (match (ECS.poolAt w info.bitPosition).Get id with
           | some _ => none
           | none => some true) := by
        unfold ECS.HasRemoved
        rw [ECS.GetComponentPool_registered w a info false hx hcons]
      unfold ECS.HasRemovedAll
      rw [hhr]
      cases hget : (ECS.poolAt w info.bitPosition).Get id with
      | some x =>
        simp only
        constructor
        · intro hc
          exact absurd hc (by simp)
        · intro hall
          have := hall a (by simp)
          rw [hbit, hget] at this
          exact absurd this (by simp)
      | none =>
        simp only
        rw [if_pos trivial, ih (fun t ht => hregs t (by simp [ht]))]
        constructor
        · intro hall t ht
          rcases List.mem_cons.mp ht with ht | ht
          · subst ht
            rw [hbit]
            exact hget
          · exact hall t ht
        · intro hall t ht
          exact hall t (by simp [ht])

/-- C3: with `T` registered with required mask `R`, `Add<T>(e, v, declared...)`
aborts when `T` is already present on `e`, aborts when the declared list's
mask differs from `R` (XOR nonzero), aborts when `e` does not hold every
declared/required type, and otherwise stores `v` in `T`'s sparse set and
returns (a reference to) the stored value `v`. -/
theorem c3_add_dependency_contract (w : ECS) (tok id v : Nat) (declared : List Nat)
    (info : ComponentInfo) (hcons : ECS.Consistent w)
    (hreg : w.componentBitPosition.lookup tok = some info)
    (hv1 : id ≠ NULL_ENTITY) (hv2 : id < w.maxEntityID) :
    ((ECS.poolAt w info.bitPosition).Get id ≠ none →
      ECS.Add w tok id v declared = none) ∧
    (∀ incoming : Nat, ECS.GetMask w declared = some incoming →
      incoming ^^^ info.requiredComponents ≠ 0 →
      ECS.Add w tok id v declared = none) ∧
    ((∀ t ∈ declared, w.componentBitPosition.lookup t ≠ none) →
      (∃ t ∈ declared,
        (ECS.poolAt w (ECS.GetComponentBitPosition w t)).Get id = none) →
      ECS.Add w tok id v declared = none) ∧
    ((ECS.poolAt w info.bitPosition).Get id = none →
      ECS.GetMask w declared = some info.requiredComponents →
      (∀ t ∈ declared,
        (ECS.poolAt w (ECS.GetComponentBitPosition w t)).Get id ≠ none) →
      (ECS.poolAt w info.bitPosition).dense.length < tombstone →
      ECS.Add w tok id v declared
          = some (ECS.setPool w info.bitPosition
              ((ECS.poolAt w info.bitPosition).Set id v), v) ∧
        (ECS.poolAt (ECS.setPool w info.bitPosition
            ((ECS.poolAt w info.bitPosition).Set id v)) info.bitPosition).Get id
          = some v) := by
  have hrc : ECS.GetRequiredComponent w tok = some info.requiredComponents := by
    unfold ECS.GetRequiredComponent
    rw [hreg]
  have hEval : ECS.Add w tok id v declared =
      (match (ECS.poolAt w info.bitPosition).Get id with
      | some _ => none
      | none =>
        match ECS.GetMask w declared with
        | none => none
        | some incoming =>
          if incoming ^^^ info.requiredComponents ≠ 0 then none
          else
            match ECS.HasAllRequired w declared id with
            | none => none
            | some b =>
              if b then
                some (ECS.setPool w info.bitPosition
                  ((ECS.poolAt w info.bitPosition).Set id v), v)
              else none) := by
    unfold ECS.Add
    rw [if_neg hv1, if_neg (by omega),
      ECS.GetComponentPool_registered w tok info true hreg hcons]
    simp only
    rw [hrc]
    rfl
  refine ⟨?_, ?_, ?_, ?_⟩
  · intro hpres
    have h := hEval
    cases hget : (ECS.poolAt w info.bitPosition).Get id with
    | none => exact absurd hget hpres
    | some x =>
      rw [hget] at h
      simpa using h
  · intro incoming hmask hxor
    have h := hEval
    cases hget : (ECS.poolAt w info.bitPosition).Get id with
    | some x =>
      rw [hget] at h
      simpa using h
    | none =>
      rw [hget] at h
      simp only at h
      rw [hmask] at h
      simp only at h
      rw [if_pos hxor] at h
      exact h
  · intro hregs hex
    have habort : ECS.HasAllRequired w declared id ≠ some true := by
      intro hc
      rw [HasAllRequired_true_iff w declared id hcons hregs] at hc
      obtain ⟨t, ht, habs⟩ := hex
      exact hc t ht habs
    have h := hEval
    cases hget : (ECS.poolAt w info.bitPosition).Get id with
    | some x =>
      rw [hget] at h
      simpa using h
    | none =>
      rw [hget] at h
      simp only at h
      cases hmask : ECS.GetMask w declared with
      | none =>
        rw [hmask] at h
        simpa using h
      | some incoming =>
        rw [hmask] at h
        simp only at h
        by_cases hxor : incoming ^^^ info.requiredComponents ≠ 0
        · rw [if_pos hxor] at h
          exact h
        · rw [if_neg hxor] at h
          cases hnal : ECS.HasAllRequired w declared id with
          | none =>
            rw [hnal] at h
            simpa using h
          | some b =>
            cases b with
            | true => exact absurd hnal habort
            | false =>
              rw [hnal] at h
              simpa using h
  · intro hget hmask hpresall hlen
    have hregs := GetMask_registered w declared _ hmask
    have hnall : ECS.HasAllRequired w declared id = some true :=
      (HasAllRequired_true_iff w declared id hcons hregs).mpr hpresall
    have h := hEval
    rw [hget] at h
    simp only at h
    rw [hmask] at h
    simp only at h
    rw [if_neg (by simp), hnall] at h
    simp only [if_pos rfl] at h
    refine ⟨h, ?_⟩
    rw [ECS.poolAt_setPool_self w info.bitPosition _
      (hcons.2 (tok, info) (mem_of_lookup hreg))]
    exact SparseSet.Get_Set_self_new _ id v ((SparseSet.Get_none_iff _ _).mp hget) hlen

/-- Engine state for the C3 witness: "Chassis" is token 0 (bit 0), "Engine"
is token 1 (bit 1, required mask {Chassis}); entity 0 holds a Chassis. -/
def c3State : ECS :=
  ⟨[], [], [⟨[[0]], [5], [0]⟩, ⟨[], [], []⟩], [(1, ⟨1, 1, 0⟩), (0, ⟨0, 0, 2⟩)], 1⟩

/-- State after a successful `Add<Engine>(0, 77, Chassis)`. -/
def c3StateAfter : ECS :=
  ⟨[], [], [⟨[[0]], [5], [0]⟩, ⟨[[0]], [77], [0]⟩], [(1, ⟨1, 1, 0⟩), (0, ⟨0, 0, 2⟩)], 1⟩

/-- Witness for C3: once the Chassis is present, `Add<Engine>` with the exact
declared dependency list succeeds and stores the value. -/
theorem c3_add_dependency_contract_witness :
    ECS.Add c3State 1 0 77 [0] = some (c3StateAfter, 77) ∧
    (ECS.poolAt c3StateAfter 1).Get 0 = some 77 :=
  (c3_add_dependency_contract c3State 1 0 77 [0] ⟨1, 1, 0⟩ (by decide) (by decide)
    (by decide) (by decide)).2.2.2 (by decide) (by decide) (by decide) (by decide)

/-- C4: with `T` registered with sustained mask `S`, `Remove<T>(e, declared...)`
aborts when `T` is absent on `e`, aborts when the declared list's mask differs
from `S` (XOR nonzero), aborts while `e` still holds any declared/sustained
type, and otherwise swap-deletes `T`'s record for `e` from the storage. -/
theorem c4_remove_dependency_contract (w : ECS) (tok id : Nat) (declared : List Nat)
    (info : ComponentInfo) (hcons : ECS.Consistent w)
    (hreg : w.componentBitPosition.lookup tok = some info)
    (hv1 : id ≠ NULL_ENTITY) (hv2 : id < w.maxEntityID) :
    ((ECS.poolAt w info.bitPosition).Get id = none →
      ECS.Remove w tok id declared = none) ∧
    (∀ incoming : Nat, ECS.GetMask w declared = some incoming →
      incoming ^^^ info.isRequiredInComponents ≠ 0 →
      ECS.Remove w tok id declared = none) ∧
    ((∀ t ∈ declared, w.componentBitPosition.lookup t ≠ none) →
      (∃ t ∈ declared,
        (ECS.poolAt w (ECS.GetComponentBitPosition w t)).Get id ≠ none) →
      ECS.Remove w tok id declared = none) ∧
    (∀ x : Nat, (ECS.poolAt w info.bitPosition).Get id = some x →
      ECS.GetMask w declared = some info.isRequiredInComponents →
      (∀ t ∈ declared,
        (ECS.poolAt w (ECS.GetComponentBitPosition w t)).Get id = none) →
      (ECS.poolAt w info.bitPosition).dense.length ≠ 0 →
      ∃ pool1, (ECS.poolAt w info.bitPosition).Delete id = some pool1 ∧
        ECS.Remove w tok id declared = some (ECS.setPool w info.bitPosition pool1) ∧
        (ECS.poolAt (ECS.setPool w info.bitPosition pool1) info.bitPosition).Get id
          = none) := by
  have hsc : ECS.GetSustainedComponent w tok = some info.isRequiredInComponents := by
    unfold ECS.GetSustainedComponent
    rw [hreg]
  have hEval : ECS.Remove w tok id declared =
      (match (ECS.poolAt w info.bitPosition).Get id with
      | none => none
      | some _ =>
        match ECS.GetMask w declared with
        | none => none
        | some incoming =>
          if incoming ^^^ info.isRequiredInComponents ≠ 0 then none
          else
            match ECS.HasRemovedAll w declared id with
            | none => none
            | some b =>
              if b then
                match (ECS.poolAt w info.bitPosition).Delete id with
                | none => none
                | some pool1 => some (ECS.setPool w info.bitPosition pool1)
              else none) := by
    unfold ECS.Remove
    rw [if_neg hv1, if_neg (by omega),
      ECS.GetComponentPool_registered w tok info false hreg hcons]
    simp only
    rw [hsc]
    rfl
  refine ⟨?_, ?_, ?_, ?_⟩
  · intro habs
    have h := hEval
    rw [habs] at h
    simpa using h
  · intro incoming hmask hxor
    have h := hEval
    cases hget : (ECS.poolAt w info.bitPosition).Get id with
    | none =>
      rw [hget] at h
      simpa using h
    | some x =>
      rw [hget] at h
      simp only at h
      rw [hmask] at h
      simp only at h
      rw [if_pos hxor] at h
      exact h
  · intro hregs hex
    have habort : ECS.HasRemovedAll w declared id ≠ some true := by
      intro hc
      rw [HasRemovedAll_true_iff w declared id hcons hregs] at hc
      obtain ⟨t, ht, habs⟩ := hex
      exact habs (hc t ht)
    have h := hEval
    cases hget : (ECS.poolAt w info.bitPosition).Get id with
    | none =>
      rw [hget] at h
      simpa using h
    | some x =>
      rw [hget] at h
      simp only at h
      cases hmask : ECS.GetMask w declared with
      | none =>
        rw [hmask] at h
        simpa using h
      | some incoming =>
        rw [hmask] at h
        simp only at h
        by_cases hxor : incoming ^^^ info.isRequiredInComponents ≠ 0
        · rw [if_pos hxor] at h
          exact h
        · rw [if_neg hxor] at h
          cases hnal : ECS.HasRemovedAll w declared id with
          | none =>
            rw [hnal] at h
            simpa using h
          | some b =>
            cases b with
            | true => exact absurd hnal habort
            | false =>
              rw [hnal] at h
              simpa using h
  · intro x hget hmask hremall hne
    have hregs := GetMask_registered w declared _ hmask
    have hnall : ECS.HasRemovedAll w declared id = some true :=
      (HasRemovedAll_true_iff w declared id hcons hregs).mpr hremall
    have hidx : SparseSet.GetDenseIndex (ECS.poolAt w info.bitPosition) id
        ≠ tombstone := by
      intro hc
      rw [(SparseSet.Get_none_iff _ _).mpr hc] at hget
      exact absurd hget (by simp)
    have hdel := SparseSet.Delete_eq (ECS.poolAt w info.bitPosition) id hidx hne
    refine ⟨_, hdel, ?_, ?_⟩
    · have h := hEval
      rw [hget] at h
      simp only at h
      rw [hmask] at h
      simp only at h
      rw [if_neg (by simp), hnall] at h
      simp only [if_pos rfl] at h
      rw [hdel] at h
      simpa using h
    · rw [ECS.poolAt_setPool_self w info.bitPosition _
        (hcons.2 (tok, info) (mem_of_lookup hreg))]
      exact SparseSet.Get_Delete_self (ECS.poolAt w info.bitPosition) id _ hdel

/-- Witness for C4: `Remove<Engine>(0)` (Engine sustains nothing) succeeds on
the state where entity 0 holds Chassis and Engine, emptying Engine's pool. -/
theorem c4_remove_dependency_contract_witness :
    ∃ pool1, (ECS.poolAt c3StateAfter 1).Delete 0 = some pool1 ∧
      ECS.Remove c3StateAfter 1 0 [] = some (ECS.setPool c3StateAfter 1 pool1) ∧
      (ECS.poolAt (ECS.setPool c3StateAfter 1 pool1) 1).Get 0 = none :=
  (c4_remove_dependency_contract c3StateAfter 1 0 [] ⟨1, 1, 0⟩ (by decide) (by decide)
    (by decide) (by decide)).2.2.2 77 (by decide) (by decide) (by decide) (by decide)

/-- `k` successive `CreateEntity("")` calls, collecting the issued ids. -/
def createN (w : ECS) : Nat → Option (ECS × List Nat)
  | 0 => some (w, [])
  | k + 1 =>
    match ECS.CreateEntity w "" with
    | none => none
    | some (w1, id) =>
      match createN w1 k with
      | none => none
      | some (w2, ids) => some (w2, id :: ids)

theorem createN_fresh (k : Nat) : ∀ w : ECS, w.availableEntities = [] →
    w.maxEntityID + k ≤ MAX_ENTITIES →
    createN w k = some ({ w with maxEntityID := w.maxEntityID + k },
      List.range' w.maxEntityID k) := by
  induction k with
  | zero =>
    intro w hpool hcap
    simp [createN, List.range']
  | succ k ih =>
    intro w hpool hcap
    have hmax : w.maxEntityID < MAX_ENTITIES := by omega
    have hMEt : MAX_ENTITIES ≤ tombstone := by decide
    have hnt : w.maxEntityID ≠ tombstone := by omega
    have hcreate : ECS.CreateEntity w "" =
        some ({ w with maxEntityID := w.maxEntityID + 1 }, w.maxEntityID) := by
      unfold ECS.CreateEntity
      rw [if_pos (by rw [hpool]; rfl), if_pos hmax, if_neg hnt, if_pos rfl]
    unfold createN
    rw [hcreate]
    simp only
    have hih := ih { w with maxEntityID := w.maxEntityID + 1 } (by simpa using hpool)
      (by simpa using (by omega : w.maxEntityID + 1 + k ≤ MAX_ENTITIES))
    simp only at hih
    rw [hih]
    simp only [Option.some.injEq, Prod.mk.injEq]
    constructor
    · show ({ w with maxEntityID := w.maxEntityID + 1 + k } : ECS)
        = { w with maxEntityID := w.maxEntityID + (k + 1) }
      have : w.maxEntityID + 1 + k = w.maxEntityID + (k + 1) := by omega
      rw [this]
    · show w.maxEntityID :: List.range' (w.maxEntityID + 1) k
        = List.range' w.maxEntityID (k + 1)
      rw [List.range'_succ]

theorem createN_overflow (k : Nat) : ∀ w : ECS, w.availableEntities = [] →
    MAX_ENTITIES < w.maxEntityID + k → 1 ≤ k → createN w k = none := by
  induction k with
  | zero =>
    intro w _ _ h1
    exact absurd h1 (by omega)
  | succ k ih =>
    intro w hpool hcap _
    by_cases hmax : w.maxEntityID < MAX_ENTITIES
    · have hMEt : MAX_ENTITIES ≤ tombstone := by decide
      have hnt : w.maxEntityID ≠ tombstone := by omega
      have hcreate : ECS.CreateEntity w "" =
          some ({ w with maxEntityID := w.maxEntityID + 1 }, w.maxEntityID) := by
        unfold ECS.CreateEntity
        rw [if_pos (by rw [hpool]; rfl), if_pos hmax, if_neg hnt, if_pos rfl]
      unfold createN
      rw [hcreate]
      simp only
      have hk : 1 ≤ k := by omega
      rw [ih { w with maxEntityID := w.maxEntityID + 1 } (by simpa using hpool)
        (by simpa using (by omega : MAX_ENTITIES < w.maxEntityID + 1 + k)) hk]
    · have hcreate : ECS.CreateEntity w "" = none := by
        unfold ECS.CreateEntity
        rw [if_pos (by rw [hpool]; rfl), if_neg hmax]
      unfold createN
      rw [hcreate]

/-- C8: `CreateEntity` pops from the free pool when non-empty; with an empty
pool it is fatal once the high-water mark has reached `MAX_ENTITIES` and
otherwise returns the current mark and increments it.  Consequently a fresh
engine issues ids `0 .. MAX_ENTITIES - 1` for its first `MAX_ENTITIES`
creations, and the next creation is fatal. -/
theorem c8_create_entity_allocation (w : ECS) (name : String) :
    (w.availableEntities ≠ [] → w.availableEntities.getLastD 0 ≠ tombstone →
      ∃ w1, ECS.CreateEntity w name = some (w1, w.availableEntities.getLastD 0) ∧
        w1.availableEntities = w.availableEntities.dropLast ∧
        w1.maxEntityID = w.maxEntityID) ∧
    (w.availableEntities = [] → MAX_ENTITIES ≤ w.maxEntityID →
      ECS.CreateEntity w name = none) ∧
    (w.availableEntities = [] → w.maxEntityID < MAX_ENTITIES →
      w.maxEntityID ≠ tombstone →
      ∃ w1, ECS.CreateEntity w name = some (w1, w.maxEntityID) ∧
        w1.maxEntityID = w.maxEntityID + 1 ∧
        w1.availableEntities = w.availableEntities) ∧
    createN ECS.init MAX_ENTITIES
      = some ({ ECS.init with maxEntityID := MAX_ENTITIES },
          List.range' 0 MAX_ENTITIES) ∧
    createN ECS.init (MAX_ENTITIES + 1) = none := by
  refine ⟨?_, ?_, ?_, ?_, ?_⟩
  · intro hpool htomb
    have hlen : ¬ w.availableEntities.length = 0 := by
      intro hc
      exact hpool (List.length_eq_zero.mp hc)
    unfold ECS.CreateEntity
    rw [if_neg hlen, if_neg htomb]
    by_cases hname : name = ""
    · rw [if_pos hname]
      exact ⟨_, rfl, rfl, rfl⟩
    · rw [if_neg hname]
      exact ⟨_, rfl, rfl, rfl⟩
  · intro hpool hcap
    unfold ECS.CreateEntity
    rw [if_pos (by rw [hpool]; rfl), if_neg (by omega)]
  · intro hpool hcap htomb
    unfold ECS.CreateEntity
    rw [if_pos (by rw [hpool]; rfl), if_pos hcap, if_neg htomb]
    by_cases hname : name = ""
    · rw [if_pos hname]
      exact ⟨_, rfl, rfl, rfl⟩
    · rw [if_neg hname]
      exact ⟨_, rfl, rfl, rfl⟩
  · simpa using createN_fresh MAX_ENTITIES ECS.init rfl (by simp [ECS.init])
  · exact createN_overflow (MAX_ENTITIES + 1) ECS.init rfl (by simp [ECS.init]) (by omega)

/-- Witness for C8: an engine whose free pool holds id 5 reissues 5; an engine
at the capacity mark with an empty pool aborts; a fresh mark of 2 issues 2. -/
theorem c8_create_entity_allocation_witness :
    (∃ w1, ECS.CreateEntity (⟨[5], [], [], [], 6⟩ : ECS) "" = some (w1, 5) ∧
      w1.availableEntities = [] ∧ w1.maxEntityID = 6) ∧
    ECS.CreateEntity (⟨[], [], [], [], MAX_ENTITIES⟩ : ECS) "" = none ∧
    (∃ w1, ECS.CreateEntity (⟨[], [], [], [], 2⟩ : ECS) "" = some (w1, 2) ∧
      w1.maxEntityID = 3 ∧ w1.availableEntities = []) := by
  refine ⟨?_, ?_, ?_⟩
  · have h := (c8_create_entity_allocation (⟨[5], [], [], [], 6⟩ : ECS) "").1
      (by decide) (by decide)
    simpa using h
  · exact (c8_create_entity_allocation (⟨[], [], [], [], MAX_ENTITIES⟩ : ECS) "").2.1
      rfl (le_refl MAX_ENTITIES)
  · have h := (c8_create_entity_allocation (⟨[], [], [], [], 2⟩ : ECS) "").2.2.1
      rfl (by decide) (by decide)
    simpa using h

/-- One entity-lifecycle operation driven through the facade. -/
inductive EOp where
  | create
  | delete (id : Nat)
deriving DecidableEq

/-- An engine state together with the handles currently held live by calling
code (issued by `CreateEntity` and not yet passed to `DeleteEntity`). -/
structure TraceState where
  ecs : ECS
  live : List Nat
deriving DecidableEq

def initTrace : TraceState := ⟨ECS.init, []⟩

def stepE (st : TraceState) : EOp → Option TraceState
  | .create =>
    match ECS.CreateEntity st.ecs "" with
    | none => none
    | some (w, id) => some ⟨w, st.live ++ [id]⟩
  | .delete id =>
    match ECS.DeleteEntity st.ecs id with
    | none => none
    | some (w, _) => some ⟨w, st.live.erase id⟩

def runEOps (st : TraceState) : List EOp → Option TraceState
  | [] => some st
  | op :: ops =>
    match stepE st op with
    | none => none
    | some st1 => runEOps st1 ops

/-- A sequence is clean when every `DeleteEntity` targets a currently-live id
(this is what the claim must be restricted to: the code does not itself check
liveness — the alive assert is commented out in the source). -/
def cleanOps (st : TraceState) : List EOp → Bool
  | [] => true
  | op :: ops =>
    (match op with
     | .create => true
     | .delete id => st.live.contains id) &&
    (match stepE st op with
     | none => true
     | some st1 => cleanOps st1 ops)

theorem CreateEntity_inv (w w1 : ECS) (id : Nat)
    (h : ECS.CreateEntity w "" = some (w1, id)) :
    (w.availableEntities = [] ∧ id = w.maxEntityID ∧
      w1.availableEntities = w.availableEntities ∧
      w1.maxEntityID = w.maxEntityID + 1) ∨
    (w.availableEntities ≠ [] ∧ id = w.availableEntities.getLastD 0 ∧
      w1.availableEntities = w.availableEntities.dropLast ∧
      w1.maxEntityID = w.maxEntityID) := by
  unfold ECS.CreateEntity at h
  by_cases hpool : w.availableEntities.length = 0
  · rw [if_pos hpool] at h
    by_cases hm : w.maxEntityID < MAX_ENTITIES
    · rw [if_pos hm] at h
      by_cases ht : w.maxEntityID = tombstone
      · rw [if_pos ht] at h
        exact absurd h (by simp)
      · rw [if_neg ht, if_pos rfl] at h
        rw [Option.some.injEq, Prod.mk.injEq] at h
        refine Or.inl ⟨List.length_eq_zero.mp hpool, h.2.symm, ?_, ?_⟩
        · rw [← h.1]
        · rw [← h.1]
    · rw [if_neg hm] at h
      exact absurd h (by simp)
  · rw [if_neg hpool] at h
    by_cases ht : w.availableEntities.getLastD 0 = tombstone
    · rw [if_pos ht] at h
      exact absurd h (by simp)
    · rw [if_neg ht, if_pos rfl] at h
      rw [Option.some.injEq, Prod.mk.injEq] at h
      refine Or.inr ⟨fun hc => hpool (by rw [hc]; rfl), h.2.symm, ?_, ?_⟩
      · rw [← h.1]
      · rw [← h.1]

theorem DeleteEntity_inv (w w1 : ECS) (id r : Nat)
    (h : ECS.DeleteEntity w id = some (w1, r)) :
    id ≠ NULL_ENTITY ∧ id < w.maxEntityID ∧ r = NULL_ENTITY ∧
    w1.availableEntities = w.availableEntities ++ [id] ∧
    w1.maxEntityID = w.maxEntityID := by
  unfold ECS.DeleteEntity at h
  by_cases h1 : id = NULL_ENTITY
  · rw [if_pos h1] at h
    exact absurd h (by simp)
  · rw [if_neg h1] at h
    by_cases h2 : w.maxEntityID ≤ id
    · rw [if_pos h2] at h
      exact absurd h (by simp)
    · rw [if_neg h2] at h
      rw [Option.some.injEq, Prod.mk.injEq] at h
      refine ⟨h1, by omega, h.2.symm, ?_, ?_⟩
      · rw [← h.1]
      · rw [← h.1]

/-- Invariant tying the live-handle list to the allocator state: no duplicate
live handles, no duplicate free ids, live and free are disjoint, and both stay
under the high-water mark. -/
def EInv (st : TraceState) : Prop :=
  st.live.Nodup ∧ st.ecs.availableEntities.Nodup ∧
  (∀ x ∈ st.live, x ∉ st.ecs.availableEntities) ∧
  (∀ x ∈ st.live, x < st.ecs.maxEntityID) ∧
  (∀ x ∈ st.ecs.availableEntities, x < st.ecs.maxEntityID)

theorem EInv_init : EInv initTrace := by
  refine ⟨List.nodup_nil, List.nodup_nil, ?_, ?_, ?_⟩ <;> intro x hx <;>
    simp [initTrace, ECS.init] at hx

theorem EInv_step (st : TraceState) (op : EOp) (st' : TraceState) (hinv : EInv st)
    (hclean : ∀ id : Nat, op = EOp.delete id → id ∈ st.live)
    (hstep : stepE st op = some st') : EInv st' := by
  obtain ⟨hnl, hnp, hdisj, hlb, hpb⟩ := hinv
  cases op with
  | create =>
    unfold stepE at hstep
    simp only at hstep
    cases hc : ECS.CreateEntity st.ecs "" with
    | none =>
      rw [hc] at hstep
      exact absurd hstep (by simp)
    | some pr =>
      obtain ⟨w1, id⟩ := pr
      rw [hc] at hstep
      rw [Option.some.injEq] at hstep
      subst hstep
      rcases CreateEntity_inv st.ecs w1 id hc with
        ⟨hpool, hid, hpool1, hmax1⟩ | ⟨hpool, hid, hpool1, hmax1⟩
      · -- fresh id from the high-water mark
        have hid_new : id ∉ st.live := by
          intro hc2
          have := hlb id hc2
          omega
        refine ⟨?_, ?_, ?_, ?_, ?_⟩
        · simp [List.nodup_append, hnl, hid_new]
        · rw [hpool1]
          exact hnp
        · intro x hx
          rw [hpool1, hpool]
          simp
        · intro x hx
          rw [hmax1]
          rcases List.mem_append.mp hx with hx | hx
          · have := hlb x hx
            omega
          · simp at hx
            omega
        · intro x hx
          rw [hpool1, hpool] at hx
          simp at hx
      · -- recycled id from the free pool
        have hid_pool : id ∈ st.ecs.availableEntities := by
          rw [hid]
          exact getLastD_mem hpool 0
        have hid_new : id ∉ st.live := fun hc2 => hdisj id hc2 hid_pool
        have hlast_eq : st.ecs.availableEntities.getLastD 0
            = st.ecs.availableEntities.getLast hpool := by
          rw [List.getLastD_eq_getLast?, List.getLast?_eq_getLast _ hpool]
          rfl
        have hid_nin_drop : id ∉ st.ecs.availableEntities.dropLast := by
          rw [hid, hlast_eq]
          intro hmem
          have hconcat := List.dropLast_concat_getLast hpool
          have hnp2 := hnp
          rw [← hconcat] at hnp2
          rw [List.nodup_append] at hnp2
          exact hnp2.2.2 hmem (by simp)
        refine ⟨?_, ?_, ?_, ?_, ?_⟩
        · simp [List.nodup_append, hnl, hid_new]
        · rw [hpool1]
          exact List.Nodup.sublist (List.dropLast_sublist _) hnp
        · intro x hx
          rw [hpool1]
          rcases List.mem_append.mp hx with hx | hx
          · intro hmem
            exact hdisj x hx ((List.dropLast_sublist _).subset hmem)
          · simp at hx
            rw [hx]
            exact hid_nin_drop
        · intro x hx
          rw [hmax1]
          rcases List.mem_append.mp hx with hx | hx
          · exact hlb x hx
          · simp at hx
            rw [hx]
            exact hpb id hid_pool
        · intro x hx
          rw [hmax1]
          rw [hpool1] at hx
          exact hpb x ((List.dropLast_sublist _).subset hx)
  | delete id =>
    unfold stepE at hstep
    simp only at hstep
    cases hc : ECS.DeleteEntity st.ecs id with
    | none =>
      rw [hc] at hstep
      exact absurd hstep (by simp)
    | some pr =>
      obtain ⟨w1, r⟩ := pr
      rw [hc] at hstep
      rw [Option.some.injEq] at hstep
      subst hstep
      obtain ⟨hnn, hlt, hr, hpool1, hmax1⟩ := DeleteEntity_inv st.ecs w1 id r hc
      have hlive : id ∈ st.live := hclean id rfl
      have hid_nin_pool : id ∉ st.ecs.availableEntities := hdisj id hlive
      refine ⟨?_, ?_, ?_, ?_, ?_⟩
      · exact List.Nodup.erase id hnl
      · rw [hpool1]
        simp [List.nodup_append, hnp, hid_nin_pool]
      · intro x hx
        have hx2 := (List.Nodup.mem_erase_iff hnl).mp hx
        rw [hpool1]
        simp only [List.mem_append, List.mem_singleton]
        rintro (hmem | hmem)
        · exact hdisj x hx2.2 hmem
        · exact hx2.1 hmem
      · intro x hx
        rw [hmax1]
        exact hlb x (List.mem_of_mem_erase hx)
      · intro x hx
        rw [hmax1, hpool1] at *
        rcases List.mem_append.mp hx with hx | hx
        · exact hpb x hx
        · simp at hx
          rw [hx]
          exact hlt

theorem EInv_run (ops : List EOp) : ∀ st : TraceState, EInv st →
    cleanOps st ops = true → ∀ st', runEOps st ops = some st' → EInv st' := by
  induction ops with
  | nil =>
    intro st hinv _ st' hrun
    simp only [runEOps, Option.some.injEq] at hrun
    subst hrun
    exact hinv
  | cons op ops ih =>
    intro st hinv hclean st' hrun
    simp only [runEOps] at hrun
    cases hstep : stepE st op with
    | none =>
      rw [hstep] at hrun
      exact absurd hrun (by simp)
    | some st1 =>
      rw [hstep] at hrun
      simp only at hrun
      unfold cleanOps at hclean
      rw [hstep] at hclean
      rw [Bool.and_eq_true] at hclean
      have hcl1 : ∀ id : Nat, op = EOp.delete id → id ∈ st.live := by
        intro id hop
        subst hop
        have := hclean.1
        simpa using this
      have hinv1 := EInv_step st op st1 hinv hcl1 hstep
      exact ih st1 hinv1 hclean.2 st' hrun

/-- C2 as stated is false: `DeleteEntity` does not check liveness (the alive
assert is commented out in the source), so deleting twice an id that was
destroyed and not yet reissued duplicates it in the free pool, and the next
two creations hand out the same id to two simultaneously-live entities.
After `create; delete 0; delete 0; create; create`, both live handles are 0
and the free pool passed through the duplicated state `[0, 0]`. -/
theorem c2_counterexample :
    (runEOps initTrace [EOp.create, EOp.delete 0, EOp.delete 0]).map
        (fun st => st.ecs.availableEntities) = some [0, 0] ∧
    (runEOps initTrace [EOp.create, EOp.delete 0, EOp.delete 0, EOp.create,
        EOp.create]).map TraceState.live = some [0, 0] ∧
    ¬ ([0, 0] : List Nat).Nodup := by
  refine ⟨by decide, by decide, by decide⟩

/-- C2 amended: for every sequence of create/delete operations in which each
`DeleteEntity` targets a currently-live id, no two simultaneously-live
entities share an id, the free pool never contains duplicates, and every id
is in at most one of the free pool and the live set (no live id is also in
the free pool). -/
theorem c2_no_duplicate_ids_for_clean_sequences (ops : List EOp) (st' : TraceState)
    (hclean : cleanOps initTrace ops = true)
    (hrun : runEOps initTrace ops = some st') :
    st'.live.Nodup ∧ st'.ecs.availableEntities.Nodup ∧
    ∀ x ∈ st'.live, x ∉ st'.ecs.availableEntities := by
  have h := EInv_run ops initTrace EInv_init hclean st' hrun
  exact ⟨h.1, h.2.1, h.2.2.1⟩

/-- Witness for the amended C2: create two entities, delete the first (live),
create again reusing its id; live handles `[1, 0]` and the now-empty pool are
duplicate-free and disjoint. -/
theorem c2_no_duplicate_ids_for_clean_sequences_witness :
    cleanOps initTrace [EOp.create, EOp.create, EOp.delete 0, EOp.create] = true ∧
    runEOps initTrace [EOp.create, EOp.create, EOp.delete 0, EOp.create]
      = some ⟨⟨[], [], [], [], 2⟩, [1, 0]⟩ ∧
    (([1, 0] : List Nat).Nodup ∧ ([] : List Nat).Nodup ∧
      ∀ x ∈ ([1, 0] : List Nat), x ∉ ([] : List Nat)) :=
  ⟨by decide, by decide,
    c2_no_duplicate_ids_for_clean_sequences
      [EOp.create, EOp.create, EOp.delete 0, EOp.create]
      ⟨⟨[], [], [], [], 2⟩, [1, 0]⟩ (by decide) (by decide)⟩

end bseecs
